import Mathlib

/-!
# Sparse Game of Life (`gol.go`)

A shallow embedding of the simulation core of `gol.go`: the sparse grid
(`map[int]map[int]bool`), `GetNeighbours`, `CalculateNextState`, `UpdateGrid`,
`GenerateInitialConditions`, the lock-guarded `UpdateGridThread` and the occupancy array of
`SavePattern`.

Go maps are association lists read by first match; Go `int` is a 64-bit
two's-complement integer, so `x + dx` is modelled with explicit wrap-around.
-/

namespace Oopsie

/-! ## Configuration -/

/-- The constant `GRID_SIZE` of `gol.go`. -/
def GRID_SIZE : Nat := 100

/-! ## Go integers -/

/-- Reduction of a mathematical integer to the 64-bit two's-complement range of Go's `int`. -/
def wrapInt (n : Int) : Int := (n + 2 ^ 63) % 2 ^ 64 - 2 ^ 63

/-- Go's `a + b` on `int`: the sum, wrapped to 64 bits. -/
def addInt (a b : Int) : Int := wrapInt (a + b)

/-- The values of Go's `int`. -/
def inInt64 (n : Int) : Prop := -(2 ^ 63) ≤ n ∧ n < 2 ^ 63

instance (n : Int) : Decidable (inInt64 n) := by unfold inInt64; infer_instance

/-! ## Go maps with `int` keys -/

/-- A Go `map[int]V`: a list of bindings, read by first match. -/
abbrev GoMap (V : Type) := List (Int × V)

/-- The comma-ok read `v, ok := m[key]`: `none` stands for `ok == false`. -/
def mapLookup {V : Type} : GoMap V → Int → Option V
  | [], _ => none
  | (k, v) :: rest, key => if k = key then some v else mapLookup rest key

/-- The assignment `m[key] = v`: overwrites the binding of `key` or adds one. -/
def mapStore {V : Type} : GoMap V → Int → V → GoMap V
  | [], key, v => [(key, v)]
  | (k, w) :: rest, key, v =>
    if k = key then (k, v) :: rest else (k, w) :: mapStore rest key v

/-- The type `SparseGrid` of `gol.go`: `map[int]map[int]bool`. -/
abbrev SparseGrid := GoMap (GoMap Bool)

/-- The value read `g[x]` of the outer map: an absent row yields the zero value, a nil map,
which reads as an empty map. -/
def rowAt (g : SparseGrid) (x : Int) : GoMap Bool := (mapLookup g x).getD []

/-- The test `_, ok := g[x][y]`: whether `(x, y)` is a key of the grid. -/
def hasKey (g : SparseGrid) (x y : Int) : Bool := (mapLookup (rowAt g x) y).isSome

/-! ## The simulation core -/

/-- The method `GetNeighbours` of `gol.go`: the two nested loops over `dx, dy = -1, 0, 1`,
skipping `dx == 0 && dy == 0`, with the two-step presence test on `g[nx]` and `g[nx][ny]`. -/
def SparseGrid.GetNeighbours (g : SparseGrid) (x y : Int) : Int :=
  ([-1, 0, 1] : List Int).foldl (fun count dx =>
    ([-1, 0, 1] : List Int).foldl (fun count dy =>
      if dx = 0 ∧ dy = 0 then count
      else
        let nx := addInt x dx
        let ny := addInt y dy
        if (mapLookup g nx).isSome then
          if (mapLookup (rowAt g nx) ny).isSome then count + 1 else count
        else count) count) 0

/-- The function `CalculateNextState` of `gol.go`. -/
def CalculateNextState (grid : SparseGrid) (x y : Int) : Bool :=
  let liveNeighbours := SparseGrid.GetNeighbours grid x y
  if (mapLookup (rowAt grid x) y).isSome then
    liveNeighbours == 2 || liveNeighbours == 3
  else
    liveNeighbours == 3

/-- The statement block shared by `UpdateGrid` and `GenerateInitialConditions`:
`if _, ok := m[x]; !ok { m[x] = make(map[int]bool) }; m[x][y] = true`. -/
def markAlive (m : SparseGrid) (x y : Int) : SparseGrid :=
  let m1 := if (mapLookup m x).isSome then m else mapStore m x []
  mapStore m1 x (mapStore (rowAt m1 x) y true)

/-- The function `UpdateGrid` of `gol.go`: a fresh grid filled by the row-major double loop
over the domain. -/
def UpdateGrid (grid : SparseGrid) : SparseGrid :=
  (List.range GRID_SIZE).foldl (fun newGrid (x : Nat) =>
    (List.range GRID_SIZE).foldl (fun newGrid (y : Nat) =>
      if CalculateNextState grid (x : Int) (y : Int) then markAlive newGrid (x : Int) (y : Int)
      else newGrid) newGrid) []

/-- The constant `DENSITY` of `gol.go`: the untyped constant `0.1`, which the comparison with
a `float64` converts to the nearest `float64`. -/
def DENSITY : ℚ := 3602879701896397 / 36028797018963968

/-- The function `GenerateInitialConditions` of `gol.go`, with the density as a parameter.
`draws k` is the value of the `k`-th call of `rand.Float64()` after the seeding (a finite
`float64`, hence a rational); the loop state carries the number of calls made so far. -/
def GenerateInitialConditions (density : ℚ) (draws : Nat → ℚ) (grid : SparseGrid) :
    SparseGrid :=
  ((List.range GRID_SIZE).foldl (fun (st : SparseGrid × Nat) (x : Nat) =>
    (List.range GRID_SIZE).foldl (fun (st : SparseGrid × Nat) (y : Nat) =>
      if draws st.2 ≤ density then (markAlive st.1 (x : Int) (y : Int), st.2 + 1)
      else (st.1, st.2 + 1)) st) (grid, 0)).1

/-- The common shape of the double loops of `UpdateGrid` and `GenerateInitialConditions`:
rows `0 .. n-1`, columns `0 .. m-1`, marking `(x, y)` when `P x y` holds. -/
def markLoop (P : Nat → Nat → Bool) (n m : Nat) (ng : SparseGrid) : SparseGrid :=
  (List.range n).foldl (fun acc (x : Nat) =>
    (List.range m).foldl (fun acc (y : Nat) =>
      if P x y = true then markAlive acc (x : Int) (y : Int) else acc) acc) ng

/-- The eight offsets of the Moore neighbourhood: `{-1,0,1} x {-1,0,1}` without `(0,0)`. -/
def mooreOffsets : List (Int × Int) :=
  (List.product [-1, 0, 1] [-1, 0, 1]).filter (fun d => decide (d ≠ (0, 0)))

/-- The neighbour count as the specification words it: the number of Moore offsets `(dx, dy)`
for which `(x+dx, y+dy)`, with Go's `+`, is a key of the grid. -/
def specNeighbourCount (g : SparseGrid) (x y : Int) : Nat :=
  (mooreOffsets.filter (fun d => hasKey g (addInt x d.1) (addInt y d.2))).length

/-- The same count with the mathematical sum `x+dx`, `y+dy` in place of Go's wrapping one. -/
def specNeighbourCountExact (g : SparseGrid) (x y : Int) : Nat :=
  (mooreOffsets.filter (fun d => hasKey g (x + d.1) (y + d.2))).length

/-- The rule of Conway's Game of Life on a liveness flag and a neighbour count. -/
def specRule (alive : Bool) (n : Int) : Prop :=
  (alive = true ∧ (n = 2 ∨ n = 3)) ∨ (alive = false ∧ n = 3)

/-- A coordinate pair of the simulated domain `[0, GRID_SIZE) x [0, GRID_SIZE)`. -/
def inDomain (x y : Int) : Prop :=
  0 ≤ x ∧ x < (GRID_SIZE : Int) ∧ 0 ≤ y ∧ y < (GRID_SIZE : Int)

instance (x y : Int) : Decidable (inDomain x y) := by unfold inDomain; infer_instance

/-- Every outer key of the grid is a row index of the domain. -/
def rowsInDomain (g : SparseGrid) : Prop :=
  ∀ u : Int, (mapLookup g u).isSome = true → 0 ≤ u ∧ u < (GRID_SIZE : Int)

/-- The domain together with its one-cell border: `-1 <= x, y <= GRID_SIZE`. -/
def inBorderedDomain (x y : Int) : Prop :=
  -1 ≤ x ∧ x ≤ (GRID_SIZE : Int) ∧ -1 ≤ y ∧ y ≤ (GRID_SIZE : Int)

/-- Three live cells in the row `x = -1`, outside the domain and adjacent to it. -/
def borderTriple : SparseGrid := [(-1, [(0, true), (1, true), (2, true)])]

/-! ## The workers of `main` -/

/-- Program points of a worker goroutine of `main`, which runs
`for { UpdateGridThread(&grid) }`: before `LOCK.Lock()`; holding the lock, before the read of
`*grid`; holding the value `v` read, before the store of `UpdateGrid(v)` to `*grid`; before
the deferred `LOCK.Unlock()`. -/
inductive WorkerPc where
  | atLock : WorkerPc
  | atRead : WorkerPc
  | atWrite (v : SparseGrid) : WorkerPc
  | atUnlock : WorkerPc

/-- The state shared by the workers: the variable `grid` of `main`, the mutex `LOCK`, the
program point of every worker, and two observers that no step reads: the number of completed
stores and the list of (value read, value stored) pairs in the order of the stores. -/
structure Shared where
  grid : SparseGrid
  locked : Bool
  pcs : Nat → WorkerPc
  advances : Nat
  log : List (SparseGrid × SparseGrid)

/-- Sets the program point of worker `i`. -/
def setPc (pcs : Nat → WorkerPc) (i : Nat) (p : WorkerPc) : Nat → WorkerPc :=
  fun j => if j = i then p else pcs j

/-- One atomic step of worker `i` in `for { UpdateGridThread(&grid) }`. `LOCK.Lock()` on a held
mutex blocks: the step leaves the state as it is. -/
def workerStep (s : Shared) (i : Nat) : Shared :=
  match s.pcs i with
  | WorkerPc.atLock =>
    if s.locked then s
    else Shared.mk s.grid true (setPc s.pcs i WorkerPc.atRead) s.advances s.log
  | WorkerPc.atRead =>
    Shared.mk s.grid s.locked (setPc s.pcs i (WorkerPc.atWrite s.grid)) s.advances s.log
  | WorkerPc.atWrite v =>
    Shared.mk (UpdateGrid v) s.locked (setPc s.pcs i WorkerPc.atUnlock) (s.advances + 1)
      (s.log ++ [(v, UpdateGrid v)])
  | WorkerPc.atUnlock =>
    Shared.mk s.grid false (setPc s.pcs i WorkerPc.atLock) s.advances s.log

/-- The state in which `main` starts its workers: the initial grid, the mutex free, every
worker before its first `LOCK.Lock()`. -/
def initShared (g0 : SparseGrid) : Shared :=
  Shared.mk g0 false (fun _ => WorkerPc.atLock) 0 []

/-- Runs `n` workers under a schedule: the list of the workers that take the successive steps.
An entry that names no worker is skipped. -/
def runWorkers (n : Nat) (s : Shared) (sched : List Nat) : Shared :=
  sched.foldl (fun st i => if i < n then workerStep st i else st) s

/-- The invariant of the lock discipline, relative to the initial grid `g0`: the grid is the
iterate of `UpdateGrid` counted by the completed stores, the log lists these iterates, a
worker past `LOCK.Lock()` holds the mutex, there is at most one such worker, and the value it
has read is the current grid. -/
structure LockInv (g0 : SparseGrid) (s : Shared) : Prop where
  grid_eq : s.grid = UpdateGrid^[s.advances] g0
  log_eq : s.log =
    (List.range s.advances).map (fun k => (UpdateGrid^[k] g0, UpdateGrid^[k + 1] g0))
  holder_locked : ∀ i, s.pcs i ≠ WorkerPc.atLock → s.locked = true
  holder_unique : ∀ i j, s.pcs i ≠ WorkerPc.atLock → s.pcs j ≠ WorkerPc.atLock → i = j
  read_current : ∀ i v, s.pcs i = WorkerPc.atWrite v → v = s.grid

/-- Membership of `u` in the integer interval `[lo, hi]`. -/
def inSpan (lo hi u : Int) : Bool := decide (lo ≤ u ∧ u ≤ hi)

/-- The block of the specification's example: `{(5,5), (5,6), (6,5), (6,6)}`. -/
def block55 : SparseGrid := [(5, [(5, true), (6, true)]), (6, [(5, true), (6, true)])]

/-- The blinker of the specification's example: `{(4,5), (5,5), (6,5)}`. -/
def blinker55 : SparseGrid := [(4, [(5, true)]), (5, [(5, true)]), (6, [(5, true)])]

/-! ## The shared slot and its lock, run by one caller -/

/-- The grid objects allocated so far, listed by address. A `SparseGrid` value of Go is a
reference to such an object. -/
abbrev GridHeap := List SparseGrid

/-- The object at address `r`. -/
def heapRead (h : GridHeap) (r : Nat) : SparseGrid := h.getD r []

/-- Replaces the object at address `r`. -/
def heapWrite (h : GridHeap) (r : Nat) (g : SparseGrid) : GridHeap := h.set r g

/-- The function `UpdateGrid` of `gol.go` run on the heap, with `r` the address of its
argument: `newGrid := make(SparseGrid)` allocates a fresh object, the loops read the object
at `r` and write the fresh object only, and the address of the fresh object is returned. -/
def UpdateGridAt (h : GridHeap) (r : Nat) : GridHeap × Nat :=
  ((List.range GRID_SIZE).foldl (fun hp (x : Nat) =>
    (List.range GRID_SIZE).foldl (fun hp (y : Nat) =>
      if CalculateNextState (heapRead hp r) (x : Int) (y : Int) then
        heapWrite hp h.length (markAlive (heapRead hp h.length) (x : Int) (y : Int))
      else hp) hp) (h ++ [[]]), h.length)

/-- The explicit state of `UpdateGridThread`: the heap of grid objects, the shared slot
`*grid` (the address of the current grid) and the mutex `LOCK` (held or free). -/
structure SlotState where
  heap : GridHeap
  slot : Nat
  locked : Bool

/-- The function `UpdateGridThread` of `gol.go`, run by a single caller: `LOCK.Lock()`,
`*grid = UpdateGrid(*grid)`, then the deferred `LOCK.Unlock()`. On a held mutex `Lock` never
returns, which is `none`. -/
def UpdateGridThread (s : SlotState) : Option SlotState :=
  if s.locked then none
  else
    let s1 := SlotState.mk s.heap s.slot true
    let r := UpdateGridAt s1.heap s1.slot
    let s2 := SlotState.mk r.1 r.2 s1.locked
    some (SlotState.mk s2.heap s2.slot false)

/-- The state after `m` successive calls of `UpdateGridThread`. -/
def callsOfThread : Nat → SlotState → Option SlotState
  | 0, s => some s
  | m + 1, s => (callsOfThread m s).bind UpdateGridThread

/-- One grid object holding the blinker of the specification, the slot pointing to it, the
mutex free. -/
def blinkerSlot : SlotState := SlotState.mk [blinker55] 0 false

/-! ## Seeding and live cells -/

/-- A sequence of draws whose first value is `0.0`, the least value of `rand.Float64()`, and
whose other values are `0.5`. -/
def zeroFirstDraws : Nat → ℚ := fun k => if k = 0 then 0 else 1 / 2

/-- The keys of a Go map, each listed once. -/
def mapKeys {V : Type} (m : GoMap V) : List Int := (m.map Prod.fst).dedup

/-- The live cells of a grid as the specification words them: the coordinates `(x, y)` that
are keys of the grid, each listed once. -/
def liveCells (g : SparseGrid) : List (Int × Int) :=
  (mapKeys g).flatMap (fun x => (mapKeys (rowAt g x)).map (fun y => (x, y)))

/-- The coordinates of the domain, in the row-major order of the loops. -/
def domainCells : List (Int × Int) :=
  (List.range GRID_SIZE).flatMap (fun (x : Nat) =>
    (List.range GRID_SIZE).map (fun (y : Nat) => ((x : Int), (y : Int))))

/-! ## The occupancy array of `SavePattern` -/

/-- The array `data` that `SavePattern` of `gol.go` builds before the upload:
`make([][]int, GRID_SIZE)`, then for every `x` the row `make([]int, GRID_SIZE)` and for every
`y` the assignment `data[x][y] = 1` when `_, ok := grid[x][y]` holds. The upload itself is
the storage client's. -/
def SavePatternData (grid : SparseGrid) (patternLabel : String) : List (List Int) :=
  (List.range GRID_SIZE).foldl (fun data (x : Nat) =>
    (List.range GRID_SIZE).foldl (fun data (y : Nat) =>
      if (mapLookup (rowAt grid (x : Int)) (y : Int)).isSome then
        data.set x ((data.getD x []).set y 1)
      else data) (data.set x (List.replicate GRID_SIZE 0)))
    (List.replicate GRID_SIZE [])

/-- The dense array as the specification words it: `GRID_SIZE` rows of `GRID_SIZE` entries,
1 where the cell is alive and 0 where it is dead. -/
def specDenseArray (g : SparseGrid) : List (List Int) :=
  (List.range GRID_SIZE).map (fun (x : Nat) =>
    (List.range GRID_SIZE).map (fun (y : Nat) =>
      if hasKey g (x : Int) (y : Int) then 1 else 0))

/-- The number of entries of the array that hold 1. -/
def countOnes (data : List (List Int)) : Nat := (data.map (fun row => row.count 1)).sum

/-- The coordinates at which the array holds 1, read back row by row. -/
def onesOf (data : List (List Int)) : List (Int × Int) :=
  (List.range data.length).flatMap (fun (x : Nat) =>
    ((List.range (data.getD x []).length).filter
      (fun (y : Nat) => (data.getD x []).getD y 0 == 1)).map
        (fun (y : Nat) => ((x : Int), (y : Int))))

/-! ## Sparsity -/

/-- The sparsity invariant of a grid: every entry that can be read holds the value `true`,
and every row that can be read holds at least one entry. -/
def sparse (g : SparseGrid) : Prop :=
  (∀ x y v, mapLookup (rowAt g x) y = some v → v = true) ∧
  (∀ x row, mapLookup g x = some row → ∃ y, (mapLookup row y).isSome = true)

/-- A grid that stores the value `false` under the key `(5, 5)` and holds an empty row. -/
def falseEntryGrid : SparseGrid := [(5, [(5, false)]), (7, [])]

/-! ## Run-time checks -/

/-- The run-time panics of Go within reach of the simulation core: the assignment to an
entry of a nil map. Reads of absent keys and of nil maps do not panic, and `int` addition
wraps. -/
inductive GoPanic where
  | nilMapWrite : GoPanic

/-- The assignment `m[x][y] = v` with its run-time check: `m[x]` is read first, and when the
row is absent it is a nil map, whose assignment panics. -/
def storeCellChecked (m : SparseGrid) (x y : Int) (v : Bool) : Except GoPanic SparseGrid :=
  match mapLookup m x with
  | none => Except.error GoPanic.nilMapWrite
  | some row => Except.ok (mapStore m x (mapStore row y v))

/-- The function `UpdateGrid` of `gol.go` with the run-time check of its assignment and a
counter of the evaluations of `CalculateNextState`. -/
def UpdateGridChecked (grid : SparseGrid) : Except GoPanic (SparseGrid × Nat) :=
  (List.range GRID_SIZE).foldlM (fun (st : SparseGrid × Nat) (x : Nat) =>
    (List.range GRID_SIZE).foldlM (fun (st : SparseGrid × Nat) (y : Nat) =>
      if CalculateNextState grid (x : Int) (y : Int) then
        (storeCellChecked
          (if (mapLookup st.1 (x : Int)).isSome then st.1 else mapStore st.1 (x : Int) [])
          (x : Int) (y : Int) true).map (fun m2 => (m2, st.2 + 1))
      else Except.ok (st.1, st.2 + 1)) st) ([], 0)

/-! ## Transposition -/

/-- The transposed grid as the specification words it: the grid whose keys are `(y, x)` for
every key `(x, y)` of `g`. -/
def transposeGrid (g : SparseGrid) : SparseGrid :=
  (liveCells g).foldl (fun acc c => markAlive acc c.2 c.1) []

/-! ## Lock events of a run -/

/-- Whether a worker stands before `LOCK.Lock()`. -/
def WorkerPc.isAtLock : WorkerPc → Bool
  | WorkerPc.atLock => true
  | _ => false

/-- Whether a worker stands before its deferred `LOCK.Unlock()`. -/
def WorkerPc.isAtUnlock : WorkerPc → Bool
  | WorkerPc.atUnlock => true
  | _ => false

/-- One scheduled step together with two event counters that do not read the observers of
`Shared`: the number of steps at which a `LOCK.Lock()` returned (the stepping worker stood
before `Lock` and the mutex was free) and the number of steps at which a deferred
`LOCK.Unlock()` ran, which ends a call of `UpdateGridThread`. -/
def observeStep (n : Nat) (st : Shared × Nat × Nat) (i : Nat) : Shared × Nat × Nat :=
  if i < n then
    (workerStep st.1 i,
      st.2.1 + (if ((st.1.pcs i).isAtLock && !st.1.locked) = true then 1 else 0),
      st.2.2 + (if (st.1.pcs i).isAtUnlock = true then 1 else 0))
  else st

/-- The run of `n` workers under a schedule, with the two event counters. -/
def observeRun (n : Nat) (s : Shared) (sched : List Nat) : Shared × Nat × Nat :=
  sched.foldl (observeStep n) (s, 0, 0)

/-- The number of lock acquisitions in the run. -/
def acquisitions (n : Nat) (s : Shared) (sched : List Nat) : Nat :=
  (observeRun n s sched).2.1

/-- The number of completed calls of `UpdateGridThread` in the run. -/
def completedCalls (n : Nat) (s : Shared) (sched : List Nat) : Nat :=
  (observeRun n s sched).2.2

/-- The invariant that ties the event counters `a` (acquisitions) and `c` (completed calls)
to the stores: with the mutex free every acquisition has stored once and released; with the
mutex held there is one more acquisition than completed calls, and its holder has stored
exactly when it stands before `Unlock`. -/
structure CallInv (n : Nat) (s : Shared) (a c : Nat) : Prop where
  free : s.locked = false → a = c ∧ s.advances = c
  held : s.locked = true → ∃ i, i < n ∧ s.pcs i ≠ WorkerPc.atLock ∧ a = c + 1 ∧
    (s.pcs i = WorkerPc.atUnlock → s.advances = c + 1) ∧
    (s.pcs i ≠ WorkerPc.atUnlock → s.advances = c)

/-- Two workers and the blinker: worker 0 runs a call while worker 1 is blocked at
`LOCK.Lock()` twice, then worker 1 runs a call. -/
def twoWorkerSchedule : List Nat := [0, 1, 0, 0, 1, 0, 1, 1, 1, 1]

/-! ## Lemmas on maps -/

theorem mapLookup_mapStore {V : Type} (m : GoMap V) (k k2 : Int) (v : V) :
    mapLookup (mapStore m k v) k2 = if k = k2 then some v else mapLookup m k2 := by
  induction m with
  | nil => simp [mapStore, mapLookup]
  | cons hd tl ih =>
    obtain ⟨a, w⟩ := hd
    by_cases h : a = k
    · subst h
      by_cases h2 : a = k2 <;> simp [mapStore, mapLookup, h2]
    · by_cases h2 : a = k2
      · subst h2
        have h3 : ¬ k = a := fun e => h e.symm
        simp [mapStore, mapLookup, h, h3]
      · simp [mapStore, mapLookup, h, h2, ih]

theorem hasKey_nil (x y : Int) : hasKey [] x y = false := by
  simp [hasKey, rowAt, mapLookup]

theorem hasKey_markAlive (m : SparseGrid) (x y u v : Int) :
    hasKey (markAlive m x y) u v = (decide (u = x ∧ v = y) || hasKey m u v) := by
  unfold markAlive hasKey rowAt
  by_cases hx : x = u
  · subst hx
    by_cases hy : y = v
    · subst hy
      simp [mapLookup_mapStore]
    · have hy2 : ¬ v = y := fun e => hy e.symm
      cases hm : mapLookup m x <;> simp [mapLookup_mapStore, hy, hy2, hm, mapLookup]
  · have hx2 : ¬ u = x := fun e => hx e.symm
    cases hm : mapLookup m x <;> simp [mapLookup_mapStore, hx, hx2, hm]

/-! ## Lemmas on Go integers -/

theorem wrapInt_of_inInt64 (n : Int) (h : inInt64 n) : wrapInt n = n := by
  unfold inInt64 at h
  unfold wrapInt
  norm_num at h ⊢
  omega

theorem addInt_one_ne (x : Int) : addInt x 1 ≠ x := by
  unfold addInt wrapInt
  norm_num
  omega

theorem addInt_neg_one_ne (x : Int) : addInt x (-1) ≠ x := by
  unfold addInt wrapInt
  norm_num
  omega

/-- Away from the two ends of the 64-bit range Go's `x + d` is the mathematical sum. -/
theorem addInt_exact (x d : Int) (hx : -(2 ^ 63) < x ∧ x < 2 ^ 63 - 1)
    (hd : d = -1 ∨ d = 0 ∨ d = 1) : addInt x d = x + d := by
  unfold addInt
  apply wrapInt_of_inInt64
  unfold inInt64
  norm_num at hx ⊢
  omega

/-! ## Lemmas on `GetNeighbours` -/

/-- One loop iteration of `GetNeighbours` adds one exactly when the neighbour is a key. -/
theorem neighbour_step (g : SparseGrid) (nx ny count : Int) :
    (if (mapLookup g nx).isSome then
      if (mapLookup (rowAt g nx) ny).isSome then count + 1 else count
     else count) = count + (if hasKey g nx ny then 1 else 0) := by
  unfold hasKey rowAt
  cases h : mapLookup g nx <;> simp [mapLookup]
  split <;> simp

theorem mooreOffsets_eq : mooreOffsets =
    [(-1, -1), (-1, 0), (-1, 1), (0, -1), (0, 1), (1, -1), (1, 0), (1, 1)] := by
  decide

/-- The loops of `GetNeighbours`, unrolled: a sum of eight presence indicators. -/
theorem GetNeighbours_eq_sum (g : SparseGrid) (x y : Int) :
    SparseGrid.GetNeighbours g x y =
      (if hasKey g (addInt x (-1)) (addInt y (-1)) then 1 else 0)
      + (if hasKey g (addInt x (-1)) (addInt y 0) then 1 else 0)
      + (if hasKey g (addInt x (-1)) (addInt y 1) then 1 else 0)
      + (if hasKey g (addInt x 0) (addInt y (-1)) then 1 else 0)
      + (if hasKey g (addInt x 0) (addInt y 1) then 1 else 0)
      + (if hasKey g (addInt x 1) (addInt y (-1)) then 1 else 0)
      + (if hasKey g (addInt x 1) (addInt y 0) then 1 else 0)
      + (if hasKey g (addInt x 1) (addInt y 1) then 1 else 0) := by
  unfold SparseGrid.GetNeighbours
  simp only [List.foldl_cons, List.foldl_nil, neighbour_step]
  simp

theorem filter_offsets_length (f : Int → Int → Bool) :
    (((mooreOffsets.filter (fun d => f d.1 d.2)).length : Nat) : Int) =
      (if f (-1) (-1) then 1 else 0) + (if f (-1) 0 then 1 else 0)
      + (if f (-1) 1 then 1 else 0) + (if f 0 (-1) then 1 else 0)
      + (if f 0 1 then 1 else 0) + (if f 1 (-1) then 1 else 0)
      + (if f 1 0 then 1 else 0) + (if f 1 1 then 1 else 0) := by
  rw [mooreOffsets_eq]
  simp only [List.filter_cons, List.filter_nil]
  cases f (-1) (-1) <;> cases f (-1) 0 <;> cases f (-1) 1 <;> cases f 0 (-1) <;>
  cases f 0 1 <;> cases f 1 (-1) <;> cases f 1 0 <;> cases f 1 1 <;> rfl

theorem GetNeighbours_eq_spec (g : SparseGrid) (x y : Int) :
    SparseGrid.GetNeighbours g x y = (specNeighbourCount g x y : Int) := by
  rw [GetNeighbours_eq_sum]
  unfold specNeighbourCount
  exact (filter_offsets_length (fun dx dy => hasKey g (addInt x dx) (addInt y dy))).symm

theorem specNeighbourCount_exact (g : SparseGrid) (x y : Int)
    (hx : -(2 ^ 63) < x ∧ x < 2 ^ 63 - 1) (hy : -(2 ^ 63) < y ∧ y < 2 ^ 63 - 1) :
    specNeighbourCount g x y = specNeighbourCountExact g x y := by
  have h := filter_offsets_length (fun dx dy => hasKey g (addInt x dx) (addInt y dy))
  have h2 := filter_offsets_length (fun dx dy => hasKey g (x + dx) (y + dy))
  unfold specNeighbourCount specNeighbourCountExact
  have e : ∀ d : Int, (d = -1 ∨ d = 0 ∨ d = 1) → addInt x d = x + d :=
    fun d hd => addInt_exact x d hx hd
  have e2 : ∀ d : Int, (d = -1 ∨ d = 0 ∨ d = 1) → addInt y d = y + d :=
    fun d hd => addInt_exact y d hy hd
  simp only [e (-1) (by simp), e 0 (by simp), e 1 (by simp),
    e2 (-1) (by simp), e2 0 (by simp), e2 1 (by simp)] at h
  have h3 := h.trans h2.symm
  exact_mod_cast h3

/-- The count of `GetNeighbours` does not depend on whether `(x, y)` itself is a key. -/
theorem GetNeighbours_congr (g g2 : SparseGrid) (x y : Int)
    (h : ∀ u v, (u, v) ≠ (x, y) → hasKey g2 u v = hasKey g u v) :
    SparseGrid.GetNeighbours g2 x y = SparseGrid.GetNeighbours g x y := by
  have hx1 := addInt_one_ne x
  have hx2 := addInt_neg_one_ne x
  have hy1 := addInt_one_ne y
  have hy2 := addInt_neg_one_ne y
  rw [GetNeighbours_eq_sum, GetNeighbours_eq_sum]
  rw [h (addInt x (-1)) (addInt y (-1)) (by simp [hx2]),
    h (addInt x (-1)) (addInt y 0) (by simp [hx2]),
    h (addInt x (-1)) (addInt y 1) (by simp [hx2]),
    h (addInt x 0) (addInt y (-1)) (by simp [hy2]),
    h (addInt x 0) (addInt y 1) (by simp [hy1]),
    h (addInt x 1) (addInt y (-1)) (by simp [hx1]),
    h (addInt x 1) (addInt y 0) (by simp [hx1]),
    h (addInt x 1) (addInt y 1) (by simp [hx1])]

theorem indicator_bounds (b : Bool) :
    0 ≤ (if b = true then (1 : Int) else 0) ∧ (if b = true then (1 : Int) else 0) ≤ 1 := by
  cases b <;> simp

theorem GetNeighbours_bounds (g : SparseGrid) (x y : Int) :
    0 ≤ SparseGrid.GetNeighbours g x y ∧ SparseGrid.GetNeighbours g x y ≤ 8 := by
  rw [GetNeighbours_eq_sum]
  have h1 := indicator_bounds (hasKey g (addInt x (-1)) (addInt y (-1)))
  have h2 := indicator_bounds (hasKey g (addInt x (-1)) (addInt y 0))
  have h3 := indicator_bounds (hasKey g (addInt x (-1)) (addInt y 1))
  have h4 := indicator_bounds (hasKey g (addInt x 0) (addInt y (-1)))
  have h5 := indicator_bounds (hasKey g (addInt x 0) (addInt y 1))
  have h6 := indicator_bounds (hasKey g (addInt x 1) (addInt y (-1)))
  have h7 := indicator_bounds (hasKey g (addInt x 1) (addInt y 0))
  have h8 := indicator_bounds (hasKey g (addInt x 1) (addInt y 1))
  omega

/-! ## Lemmas on `CalculateNextState` -/

theorem CalculateNextState_iff (g : SparseGrid) (x y : Int) :
    CalculateNextState g x y = true ↔
      specRule (hasKey g x y) (SparseGrid.GetNeighbours g x y) := by
  unfold CalculateNextState specRule hasKey
  cases h : (mapLookup (rowAt g x) y).isSome <;> simp

/-! ## Lemmas on the double loop of `UpdateGrid` -/

/-- Keys after the inner loop over `y = 0 .. n-1` at row `x`. -/
theorem hasKey_rowLoop (P : Nat → Bool) (x : Int) (n : Nat) (ng : SparseGrid) (u v : Int) :
    hasKey ((List.range n).foldl
        (fun acc y => if P y = true then markAlive acc x (y : Int) else acc) ng) u v = true ↔
      (hasKey ng u v = true ∨ (u = x ∧ ∃ j : Nat, j < n ∧ (j : Int) = v ∧ P j = true)) := by
  induction n with
  | zero => simp
  | succ n ih =>
    rw [List.range_succ, List.foldl_append]
    simp only [List.foldl_cons, List.foldl_nil]
    by_cases hp : P n = true
    · rw [if_pos hp]
      simp only [hasKey_markAlive, Bool.or_eq_true, decide_eq_true_eq, ih]
      constructor
      · rintro (⟨h1, h2⟩ | h | ⟨h1, j, hj, hv, hpj⟩)
        · exact Or.inr ⟨h1, n, Nat.lt_succ_self n, h2.symm, hp⟩
        · exact Or.inl h
        · exact Or.inr ⟨h1, j, Nat.lt_succ_of_lt hj, hv, hpj⟩
      · rintro (h | ⟨h1, j, hj, hv, hpj⟩)
        · exact Or.inr (Or.inl h)
        · rcases Nat.lt_succ_iff_lt_or_eq.mp hj with h3 | h3
          · exact Or.inr (Or.inr ⟨h1, j, h3, hv, hpj⟩)
          · subst h3
            exact Or.inl ⟨h1, hv.symm⟩
    · rw [if_neg hp, ih]
      constructor
      · rintro (h | ⟨h1, j, hj, hv, hpj⟩)
        · exact Or.inl h
        · exact Or.inr ⟨h1, j, Nat.lt_succ_of_lt hj, hv, hpj⟩
      · rintro (h | ⟨h1, j, hj, hv, hpj⟩)
        · exact Or.inl h
        · rcases Nat.lt_succ_iff_lt_or_eq.mp hj with h3 | h3
          · exact Or.inr ⟨h1, j, h3, hv, hpj⟩
          · subst h3
            exact absurd hpj hp

/-- Keys after the outer loop over `x = 0 .. n-1`, each row looping over `y = 0 .. m-1`. -/
theorem hasKey_gridLoop (P : Nat → Nat → Bool) (n m : Nat) (ng : SparseGrid) (u v : Int) :
    hasKey ((List.range n).foldl (fun acc x => (List.range m).foldl
        (fun acc y => if P x y = true then markAlive acc (x : Int) (y : Int) else acc) acc) ng)
        u v = true ↔
      (hasKey ng u v = true ∨
        ∃ i j : Nat, i < n ∧ j < m ∧ (i : Int) = u ∧ (j : Int) = v ∧ P i j = true) := by
  induction n with
  | zero => simp
  | succ n ih =>
    rw [List.range_succ, List.foldl_append]
    simp only [List.foldl_cons, List.foldl_nil]
    rw [hasKey_rowLoop (P n) (n : Int) m, ih]
    constructor
    · rintro ((h | ⟨i, j, hi, hj, hu, hv, hp⟩) | ⟨hu, j, hj, hv, hp⟩)
      · exact Or.inl h
      · exact Or.inr ⟨i, j, Nat.lt_succ_of_lt hi, hj, hu, hv, hp⟩
      · exact Or.inr ⟨n, j, Nat.lt_succ_self n, hj, hu.symm, hv, hp⟩
    · rintro (h | ⟨i, j, hi, hj, hu, hv, hp⟩)
      · exact Or.inl (Or.inl h)
      · rcases Nat.lt_succ_iff_lt_or_eq.mp hi with h3 | h3
        · exact Or.inl (Or.inr ⟨i, j, h3, hj, hu, hv, hp⟩)
        · subst h3
          exact Or.inr ⟨hu.symm, j, hj, hv, hp⟩

theorem UpdateGrid_eq_markLoop (g : SparseGrid) :
    UpdateGrid g =
      markLoop (fun i j => CalculateNextState g (i : Int) (j : Int)) GRID_SIZE GRID_SIZE [] :=
  rfl

theorem hasKey_markLoop (P : Nat → Nat → Bool) (n m : Nat) (ng : SparseGrid) (u v : Int) :
    hasKey (markLoop P n m ng) u v = true ↔
      (hasKey ng u v = true ∨
        ∃ i j : Nat, i < n ∧ j < m ∧ (i : Int) = u ∧ (j : Int) = v ∧ P i j = true) :=
  hasKey_gridLoop P n m ng u v

/-- An invariant kept by every marking of a cell of the loop range holds after the loop. -/
theorem rowLoop_invariant (Inv : SparseGrid → Prop) (P : Nat → Bool) (x : Int) (m : Nat)
    (hstep : ∀ acc (j : Nat), j < m → Inv acc → Inv (markAlive acc x (j : Int)))
    (ng : SparseGrid) (h0 : Inv ng) :
    Inv ((List.range m).foldl
      (fun acc (y : Nat) => if P y = true then markAlive acc x (y : Int) else acc) ng) := by
  induction m with
  | zero => simpa using h0
  | succ m ih =>
    rw [List.range_succ, List.foldl_append]
    simp only [List.foldl_cons, List.foldl_nil]
    have h1 := ih (fun acc j hj hacc => hstep acc j (Nat.lt_succ_of_lt hj) hacc)
    by_cases hp : P m = true
    · rw [if_pos hp]
      exact hstep _ m (Nat.lt_succ_self m) h1
    · rw [if_neg hp]
      exact h1

theorem markLoop_invariant (Inv : SparseGrid → Prop) (P : Nat → Nat → Bool) (n m : Nat)
    (hstep : ∀ acc (i j : Nat), i < n → j < m → Inv acc →
      Inv (markAlive acc (i : Int) (j : Int)))
    (ng : SparseGrid) (h0 : Inv ng) : Inv (markLoop P n m ng) := by
  induction n with
  | zero => simpa [markLoop] using h0
  | succ n ih =>
    unfold markLoop
    rw [List.range_succ, List.foldl_append]
    simp only [List.foldl_cons, List.foldl_nil]
    have h1 := ih (fun acc i j hi hj hacc => hstep acc i j (Nat.lt_succ_of_lt hi) hj hacc)
    exact rowLoop_invariant Inv (P n) (n : Int) m
      (fun acc j hj hacc => hstep acc n j (Nat.lt_succ_self n) hj hacc) _ h1

/-- The loop result depends on the marking condition only at the cells of the loop range. -/
theorem rowLoop_congr (P Q : Nat → Bool) (x : Int) (m : Nat)
    (h : ∀ j : Nat, j < m → P j = Q j) (ng : SparseGrid) :
    (List.range m).foldl
        (fun acc (y : Nat) => if P y = true then markAlive acc x (y : Int) else acc) ng =
      (List.range m).foldl
        (fun acc (y : Nat) => if Q y = true then markAlive acc x (y : Int) else acc) ng := by
  induction m with
  | zero => simp
  | succ m ih =>
    rw [List.range_succ, List.foldl_append, List.foldl_append]
    simp only [List.foldl_cons, List.foldl_nil]
    rw [ih (fun j hj => h j (Nat.lt_succ_of_lt hj)), h m (Nat.lt_succ_self m)]

theorem markLoop_congr (P Q : Nat → Nat → Bool) (n m : Nat)
    (h : ∀ i j : Nat, i < n → j < m → P i j = Q i j) (ng : SparseGrid) :
    markLoop P n m ng = markLoop Q n m ng := by
  induction n with
  | zero => simp [markLoop]
  | succ n ih =>
    unfold markLoop
    rw [List.range_succ, List.foldl_append, List.foldl_append]
    simp only [List.foldl_cons, List.foldl_nil]
    have h1 := ih (fun i j hi hj => h i j (Nat.lt_succ_of_lt hi) hj)
    unfold markLoop at h1
    rw [h1]
    exact rowLoop_congr (P n) (Q n) (n : Int) m (fun j hj => h n j (Nat.lt_succ_self n) hj) _

theorem rowLoop_false (x : Int) (m : Nat) (ng : SparseGrid) :
    (List.range m).foldl
      (fun acc (y : Nat) => if (fun _ => false) y = true then markAlive acc x (y : Int)
        else acc) ng = ng := by
  induction m with
  | zero => simp
  | succ m ih =>
    rw [List.range_succ, List.foldl_append]
    simp only [List.foldl_cons, List.foldl_nil]
    rw [ih]
    simp

theorem markLoop_false (n m : Nat) (ng : SparseGrid) :
    markLoop (fun _ _ => false) n m ng = ng := by
  induction n with
  | zero => simp [markLoop]
  | succ n ih =>
    unfold markLoop
    rw [List.range_succ, List.foldl_append]
    simp only [List.foldl_cons, List.foldl_nil]
    unfold markLoop at ih
    rw [ih]
    exact rowLoop_false (n : Int) m ng

/-- The keys of `UpdateGrid g`: the domain cells at which `CalculateNextState` holds. -/
theorem hasKey_UpdateGrid (g : SparseGrid) (x y : Int) :
    hasKey (UpdateGrid g) x y = true ↔ (inDomain x y ∧ CalculateNextState g x y = true) := by
  unfold UpdateGrid
  rw [hasKey_gridLoop (fun i j => CalculateNextState g (i : Int) (j : Int))]
  simp only [hasKey_nil, Bool.false_eq_true, false_or]
  unfold inDomain
  constructor
  · rintro ⟨i, j, hi, hj, hu, hv, hp⟩
    subst hu
    subst hv
    refine ⟨⟨?_, ?_, ?_, ?_⟩, hp⟩ <;> omega
  · rintro ⟨⟨h1, h2, h3, h4⟩, hp⟩
    refine ⟨x.toNat, y.toNat, ?_, ?_, ?_, ?_, ?_⟩
    · omega
    · omega
    · omega
    · omega
    · have e1 : ((x.toNat : Nat) : Int) = x := Int.toNat_of_nonneg h1
      have e2 : ((y.toNat : Nat) : Int) = y := Int.toNat_of_nonneg h3
      rw [e1, e2]
      exact hp

/-! ## Lemmas on `GenerateInitialConditions` -/

theorem genRow_eq (density : ℚ) (draws : Nat → ℚ) (x : Int) (m : Nat) (g : SparseGrid)
    (c : Nat) :
    (List.range m).foldl (fun (st : SparseGrid × Nat) (y : Nat) =>
        if draws st.2 ≤ density then (markAlive st.1 x (y : Int), st.2 + 1)
        else (st.1, st.2 + 1)) (g, c) =
      ((List.range m).foldl (fun acc (y : Nat) =>
        if decide (draws (c + y) ≤ density) = true then markAlive acc x (y : Int) else acc) g,
        c + m) := by
  induction m with
  | zero => simp
  | succ m ih =>
    rw [List.range_succ, List.foldl_append, List.foldl_append, ih]
    simp only [List.foldl_cons, List.foldl_nil, decide_eq_true_eq]
    by_cases h : draws (c + m) ≤ density
    · rw [if_pos h, if_pos h]
      rfl
    · rw [if_neg h, if_neg h]
      rfl

theorem genLoop_eq (density : ℚ) (draws : Nat → ℚ) (n m : Nat) (g : SparseGrid) :
    (List.range n).foldl (fun (st : SparseGrid × Nat) (x : Nat) =>
      (List.range m).foldl (fun (st : SparseGrid × Nat) (y : Nat) =>
        if draws st.2 ≤ density then (markAlive st.1 (x : Int) (y : Int), st.2 + 1)
        else (st.1, st.2 + 1)) st) (g, 0) =
      (markLoop (fun i j => decide (draws (i * m + j) ≤ density)) n m g, n * m) := by
  induction n with
  | zero => simp [markLoop]
  | succ n ih =>
    rw [List.range_succ, List.foldl_append, ih]
    simp only [List.foldl_cons, List.foldl_nil]
    rw [genRow_eq]
    unfold markLoop
    rw [List.range_succ, List.foldl_append]
    simp only [List.foldl_cons, List.foldl_nil]
    rw [Nat.succ_mul]

/-- The generator is the marking loop whose condition at `(x, y)` reads draw number
`x * GRID_SIZE + y`. -/
theorem GenerateInitialConditions_eq_markLoop (density : ℚ) (draws : Nat → ℚ)
    (g : SparseGrid) :
    GenerateInitialConditions density draws g =
      markLoop (fun i j => decide (draws (i * GRID_SIZE + j) ≤ density))
        GRID_SIZE GRID_SIZE g := by
  unfold GenerateInitialConditions
  rw [genLoop_eq]

/-! ## Lemmas on the stored coordinates -/

theorem rowKey_markAlive (m : SparseGrid) (x y u : Int) :
    (mapLookup (markAlive m x y) u).isSome = (decide (u = x) || (mapLookup m u).isSome) := by
  unfold markAlive
  by_cases hx : x = u
  · subst hx
    simp [mapLookup_mapStore]
  · have hx2 : ¬ u = x := fun e => hx e.symm
    cases hm : mapLookup m x <;> simp [mapLookup_mapStore, hx, hx2, hm]

theorem rowsInDomain_markLoop (P : Nat → Nat → Bool) (ng : SparseGrid)
    (h0 : rowsInDomain ng) : rowsInDomain (markLoop P GRID_SIZE GRID_SIZE ng) := by
  apply markLoop_invariant rowsInDomain P GRID_SIZE GRID_SIZE _ ng h0
  intro acc i j hi _ hacc u hu
  rw [rowKey_markAlive] at hu
  simp only [Bool.or_eq_true, decide_eq_true_eq] at hu
  rcases hu with hu | hu
  · subst hu
    constructor <;> omega
  · exact hacc u hu

theorem rowsInDomain_nil : rowsInDomain [] := by
  intro u hu
  simp [mapLookup] at hu

theorem hasKey_markLoop_inDomain (P : Nat → Nat → Bool) (x y : Int)
    (h : hasKey (markLoop P GRID_SIZE GRID_SIZE []) x y = true) : inDomain x y := by
  rw [hasKey_markLoop] at h
  simp only [hasKey_nil, Bool.false_eq_true, false_or] at h
  obtain ⟨i, j, hi, hj, hu, hv, _⟩ := h
  subst hu
  subst hv
  unfold inDomain
  refine ⟨?_, ?_, ?_, ?_⟩ <;> omega

theorem iterate_UpdateGrid_inDomain (g : SparseGrid)
    (hg : ∀ x y, hasKey g x y = true → inDomain x y) (n : Nat) (x y : Int)
    (h : hasKey (UpdateGrid^[n] g) x y = true) : inDomain x y := by
  cases n with
  | zero => exact hg x y h
  | succ n =>
    rw [Function.iterate_succ_apply', UpdateGrid_eq_markLoop] at h
    exact hasKey_markLoop_inDomain _ x y h

theorem iterate_UpdateGrid_rowsInDomain (g : SparseGrid) (hg : rowsInDomain g) (n : Nat) :
    rowsInDomain (UpdateGrid^[n] g) := by
  cases n with
  | zero => exact hg
  | succ n =>
    rw [Function.iterate_succ_apply', UpdateGrid_eq_markLoop]
    exact rowsInDomain_markLoop _ [] rowsInDomain_nil

/-! ## The generation step: keys of the next grid -/

/-- C1: `(x, y)` is a key of `UpdateGrid g` if and only if it lies in the domain
`0 <= x, y < GRID_SIZE` and either it is a key of `g` with `GetNeighbours` equal to 2 or 3,
or it is not a key of `g` and `GetNeighbours` is exactly 3; this for every grid, keys
outside the domain included, and every pair of integers. -/
theorem UpdateGrid_key_iff_rule (g : SparseGrid) (x y : Int) :
    hasKey (UpdateGrid g) x y = true ↔
      (0 ≤ x ∧ x < (GRID_SIZE : Int) ∧ 0 ≤ y ∧ y < (GRID_SIZE : Int) ∧
        ((hasKey g x y = true ∧
            (SparseGrid.GetNeighbours g x y = 2 ∨ SparseGrid.GetNeighbours g x y = 3)) ∨
          (hasKey g x y = false ∧ SparseGrid.GetNeighbours g x y = 3))) := by
  rw [hasKey_UpdateGrid, CalculateNextState_iff]
  unfold inDomain specRule
  constructor
  · rintro ⟨⟨h1, h2, h3, h4⟩, h⟩
    exact ⟨h1, h2, h3, h4, h⟩
  · rintro ⟨h1, h2, h3, h4, h⟩
    exact ⟨⟨h1, h2, h3, h4⟩, h⟩

/-- C2: `CalculateNextState g x y` is true exactly when `(x, y)` is a key of `g` and
`GetNeighbours` is 2 or 3, or `(x, y)` is not a key and `GetNeighbours` is 3; in every other
combination it is false. No bound on `x` and `y` is assumed. -/
theorem CalculateNextState_rule (g : SparseGrid) (x y : Int) :
    (CalculateNextState g x y = true ↔
      ((hasKey g x y = true ∧
          (SparseGrid.GetNeighbours g x y = 2 ∨ SparseGrid.GetNeighbours g x y = 3)) ∨
        (hasKey g x y = false ∧ SparseGrid.GetNeighbours g x y = 3))) ∧
    (CalculateNextState g x y = false ↔
      ¬ ((hasKey g x y = true ∧
          (SparseGrid.GetNeighbours g x y = 2 ∨ SparseGrid.GetNeighbours g x y = 3)) ∨
        (hasKey g x y = false ∧ SparseGrid.GetNeighbours g x y = 3))) := by
  have h := CalculateNextState_iff g x y
  unfold specRule at h
  refine ⟨h, ?_⟩
  rw [← h]
  simp

/-- C3: `GetNeighbours g x y` is the number of the eight Moore offsets `(dx, dy)` for which
`(x+dx, y+dy)` is a key of `g`, the sums being Go's; whenever `x` and `y` are not at an end of
the 64-bit range this is the count with the mathematical sums. The cell `(x, y)` itself is
never counted: a grid that differs from `g` at most at `(x, y)` has the same count. No bound
on `x` and `y` enters. -/
theorem GetNeighbours_counts_moore (g : SparseGrid) (x y : Int) :
    SparseGrid.GetNeighbours g x y = (specNeighbourCount g x y : Int) ∧
    ((-(2 ^ 63) < x ∧ x < 2 ^ 63 - 1) → (-(2 ^ 63) < y ∧ y < 2 ^ 63 - 1) →
      SparseGrid.GetNeighbours g x y = (specNeighbourCountExact g x y : Int)) ∧
    (∀ g2 : SparseGrid, (∀ u v, (u, v) ≠ (x, y) → hasKey g2 u v = hasKey g u v) →
      SparseGrid.GetNeighbours g2 x y = SparseGrid.GetNeighbours g x y) := by
  refine ⟨GetNeighbours_eq_spec g x y, ?_, ?_⟩
  · intro hx hy
    rw [GetNeighbours_eq_spec, specNeighbourCount_exact g x y hx hy]
  · intro g2 h
    exact GetNeighbours_congr g g2 x y h

/-- Witness of C3 at the grid `{(5,5), (5,6), (6,6)}` and the cell `(5, 5)`: two neighbours,
also for the grid without `(5, 5)`. -/
theorem GetNeighbours_counts_moore_witness :
    SparseGrid.GetNeighbours [(5, [(5, true), (6, true)]), (6, [(6, true)])] 5 5
        = (specNeighbourCountExact [(5, [(5, true), (6, true)]), (6, [(6, true)])] 5 5 : Int) ∧
    SparseGrid.GetNeighbours [(5, [(6, true)]), (6, [(6, true)])] 5 5
        = SparseGrid.GetNeighbours [(5, [(5, true), (6, true)]), (6, [(6, true)])] 5 5 := by
  have h := GetNeighbours_counts_moore [(5, [(5, true), (6, true)]), (6, [(6, true)])] 5 5
  refine ⟨h.2.1 (by norm_num) (by norm_num), h.2.2 _ ?_⟩
  intro u v huv
  unfold hasKey rowAt
  by_cases h5 : u = 5
  · subst h5
    have hv : v ≠ 5 := fun e => huv (by rw [e])
    have hv2 : ¬ (5 : Int) = v := fun e => hv e.symm
    simp [mapLookup, hv2]
  · have h5b : ¬ (5 : Int) = u := fun e => h5 e.symm
    simp [mapLookup, h5b]

/-- C4: `GetNeighbours` returns a value between 0 and 8, for every grid and coordinates. -/
theorem GetNeighbours_range (g : SparseGrid) (x y : Int) :
    0 ≤ SparseGrid.GetNeighbours g x y ∧ SparseGrid.GetNeighbours g x y ≤ 8 :=
  GetNeighbours_bounds g x y

/-! ## Cells outside the domain -/

theorem GetNeighbours_nil (x y : Int) : SparseGrid.GetNeighbours [] x y = 0 := by
  rw [GetNeighbours_eq_sum]
  simp [hasKey_nil]

theorem CalculateNextState_nil (x y : Int) : CalculateNextState [] x y = false := by
  unfold CalculateNextState
  simp [GetNeighbours_nil, rowAt, mapLookup]

/-- In the domain the count of `GetNeighbours` reads the eight cells `(x+dx, y+dy)`. -/
theorem GetNeighbours_eq_sum_exact (g : SparseGrid) (x y : Int)
    (hx : -(2 ^ 63) < x ∧ x < 2 ^ 63 - 1) (hy : -(2 ^ 63) < y ∧ y < 2 ^ 63 - 1) :
    SparseGrid.GetNeighbours g x y =
      (if hasKey g (x + -1) (y + -1) then 1 else 0)
      + (if hasKey g (x + -1) (y + 0) then 1 else 0)
      + (if hasKey g (x + -1) (y + 1) then 1 else 0)
      + (if hasKey g (x + 0) (y + -1) then 1 else 0)
      + (if hasKey g (x + 0) (y + 1) then 1 else 0)
      + (if hasKey g (x + 1) (y + -1) then 1 else 0)
      + (if hasKey g (x + 1) (y + 0) then 1 else 0)
      + (if hasKey g (x + 1) (y + 1) then 1 else 0) := by
  rw [GetNeighbours_eq_sum]
  rw [addInt_exact x (-1) hx (by simp), addInt_exact x 0 hx (by simp),
    addInt_exact x 1 hx (by simp), addInt_exact y (-1) hy (by simp),
    addInt_exact y 0 hy (by simp), addInt_exact y 1 hy (by simp)]

theorem inDomain_not_boundary (x y : Int) (h : inDomain x y) :
    (-(2 ^ 63) < x ∧ x < 2 ^ 63 - 1) ∧ (-(2 ^ 63) < y ∧ y < 2 ^ 63 - 1) := by
  unfold inDomain GRID_SIZE at h
  norm_num at h ⊢
  omega

/-- Two grids with the same keys on the bordered domain take the same next state at every
cell of the domain. -/
theorem CalculateNextState_congr_bordered (g1 g2 : SparseGrid)
    (h : ∀ x y, inBorderedDomain x y → hasKey g1 x y = hasKey g2 x y)
    (x y : Int) (hd : inDomain x y) :
    CalculateNextState g1 x y = CalculateNextState g2 x y := by
  obtain ⟨hx, hy⟩ := inDomain_not_boundary x y hd
  have hb : ∀ dx dy : Int, (dx = -1 ∨ dx = 0 ∨ dx = 1) → (dy = -1 ∨ dy = 0 ∨ dy = 1) →
      hasKey g1 (x + dx) (y + dy) = hasKey g2 (x + dx) (y + dy) := by
    intro dx dy hdx hdy
    apply h
    unfold inDomain at hd
    unfold inBorderedDomain
    omega
  have hc : hasKey g1 x y = hasKey g2 x y := by
    have := hb 0 0 (by simp) (by simp)
    simpa using this
  have hn : SparseGrid.GetNeighbours g1 x y = SparseGrid.GetNeighbours g2 x y := by
    rw [GetNeighbours_eq_sum_exact g1 x y hx hy, GetNeighbours_eq_sum_exact g2 x y hx hy]
    rw [hb (-1) (-1) (by simp) (by simp), hb (-1) 0 (by simp) (by simp),
      hb (-1) 1 (by simp) (by simp), hb 0 (-1) (by simp) (by simp),
      hb 0 1 (by simp) (by simp), hb 1 (-1) (by simp) (by simp),
      hb 1 0 (by simp) (by simp), hb 1 1 (by simp) (by simp)]
  unfold CalculateNextState
  unfold hasKey at hc
  rw [hn, hc]

theorem UpdateGrid_congr (g1 g2 : SparseGrid)
    (h : ∀ x y, inDomain x y → CalculateNextState g1 x y = CalculateNextState g2 x y) :
    UpdateGrid g1 = UpdateGrid g2 := by
  rw [UpdateGrid_eq_markLoop, UpdateGrid_eq_markLoop]
  apply markLoop_congr
  intro i j hi hj
  apply h
  unfold inDomain
  refine ⟨?_, ?_, ?_, ?_⟩ <;> omega

/-- Counterexample to C5: the empty grid and the grid `{(-1,0), (-1,1), (-1,2)}` have the same
keys at every coordinate of the domain, yet the step of the second has the live cell `(0, 1)`
and the step of the first has not. -/
theorem offDomain_cells_propagate :
    (∀ x y, inDomain x y → hasKey [] x y = hasKey borderTriple x y) ∧
    hasKey (UpdateGrid []) 0 1 = false ∧
    hasKey (UpdateGrid borderTriple) 0 1 = true := by
  refine ⟨?_, ?_, ?_⟩
  · intro x y hd
    unfold inDomain at hd
    have hx : ¬ (-1 : Int) = x := by omega
    simp [hasKey, rowAt, mapLookup, borderTriple, hx]
  · rw [Bool.eq_false_iff]
    intro hk
    rw [hasKey_UpdateGrid, CalculateNextState_nil] at hk
    exact Bool.false_ne_true hk.2
  · rw [hasKey_UpdateGrid]
    refine ⟨by unfold inDomain GRID_SIZE; norm_num, ?_⟩
    decide

/-- C5, amended: two grids with the same keys at every coordinate of the domain and of its
one-cell border (`-1 <= x, y <= GRID_SIZE`) have the same next generation: `UpdateGrid`
returns the same grid for both, hence the same live cells. Live cells farther out never
influence the next generation. -/
theorem UpdateGrid_depends_on_bordered_domain (g1 g2 : SparseGrid)
    (h : ∀ x y, (-1 ≤ x ∧ x ≤ (GRID_SIZE : Int) ∧ -1 ≤ y ∧ y ≤ (GRID_SIZE : Int)) →
      hasKey g1 x y = hasKey g2 x y) :
    UpdateGrid g1 = UpdateGrid g2 ∧
    ∀ x y, hasKey (UpdateGrid g1) x y = hasKey (UpdateGrid g2) x y := by
  have e : UpdateGrid g1 = UpdateGrid g2 :=
    UpdateGrid_congr g1 g2 (CalculateNextState_congr_bordered g1 g2 h)
  exact ⟨e, fun x y => by rw [e]⟩

/-- Witness of the amended C5: the empty grid and the grid `{(-2, 0)}`, which differ only
beyond the border. -/
theorem UpdateGrid_depends_on_bordered_domain_witness :
    UpdateGrid [] = UpdateGrid [(-2, [(0, true)])] ∧
    hasKey (UpdateGrid []) 0 0 = hasKey (UpdateGrid [(-2, [(0, true)])]) 0 0 := by
  have h := UpdateGrid_depends_on_bordered_domain [] [(-2, [(0, true)])] (by
    intro x y hb
    have hx : ¬ (-2 : Int) = x := by omega
    simp [hasKey, rowAt, mapLookup, hx])
  exact ⟨h.1, h.2 0 0⟩

/-! ## Reachable grids store domain coordinates only -/

/-- C6: every key `(x, y)` of `UpdateGrid g` lies in the domain, whatever keys `g` holds;
so does every key of the grid `GenerateInitialConditions` fills from the empty grid, for every
density and every sequence of draws; hence so does every key of every grid reached from that
initial grid by `n` steps of `UpdateGrid`. The outer row keys of these grids lie in
`[0, GRID_SIZE)` as well. -/
theorem reachable_keys_in_domain (g : SparseGrid) (density : ℚ) (draws : Nat → ℚ) (n : Nat)
    (x y : Int) :
    (hasKey (UpdateGrid g) x y = true →
      0 ≤ x ∧ x < (GRID_SIZE : Int) ∧ 0 ≤ y ∧ y < (GRID_SIZE : Int)) ∧
    (hasKey (GenerateInitialConditions density draws []) x y = true →
      0 ≤ x ∧ x < (GRID_SIZE : Int) ∧ 0 ≤ y ∧ y < (GRID_SIZE : Int)) ∧
    (hasKey (UpdateGrid^[n] (GenerateInitialConditions density draws [])) x y = true →
      0 ≤ x ∧ x < (GRID_SIZE : Int) ∧ 0 ≤ y ∧ y < (GRID_SIZE : Int)) ∧
    ((mapLookup (UpdateGrid g) x).isSome = true → 0 ≤ x ∧ x < (GRID_SIZE : Int)) ∧
    ((mapLookup (GenerateInitialConditions density draws []) x).isSome = true →
      0 ≤ x ∧ x < (GRID_SIZE : Int)) ∧
    ((mapLookup (UpdateGrid^[n] (GenerateInitialConditions density draws [])) x).isSome = true →
      0 ≤ x ∧ x < (GRID_SIZE : Int)) := by
  have hgen : ∀ u v, hasKey (GenerateInitialConditions density draws []) u v = true →
      inDomain u v := by
    intro u v huv
    rw [GenerateInitialConditions_eq_markLoop] at huv
    exact hasKey_markLoop_inDomain _ u v huv
  have hrows : rowsInDomain (GenerateInitialConditions density draws []) := by
    rw [GenerateInitialConditions_eq_markLoop]
    exact rowsInDomain_markLoop _ [] rowsInDomain_nil
  refine ⟨?_, ?_, ?_, ?_, ?_, ?_⟩
  · intro h
    rw [UpdateGrid_eq_markLoop] at h
    exact hasKey_markLoop_inDomain _ x y h
  · exact hgen x y
  · exact iterate_UpdateGrid_inDomain _ hgen n x y
  · intro h
    rw [UpdateGrid_eq_markLoop] at h
    exact rowsInDomain_markLoop _ [] rowsInDomain_nil x h
  · exact hrows x
  · exact iterate_UpdateGrid_rowsInDomain _ hrows n x

/-- Witness of C6: the cell `(0, 1)` born from the off-domain triple, and the cell `(5, 5)` of
the grid generated with density 1 from draws that are all 0. -/
theorem reachable_keys_in_domain_witness :
    ((0 : Int) ≤ 0 ∧ (0 : Int) < (GRID_SIZE : Int) ∧
      (0 : Int) ≤ 1 ∧ (1 : Int) < (GRID_SIZE : Int)) ∧
    ((0 : Int) ≤ 5 ∧ (5 : Int) < (GRID_SIZE : Int) ∧
      (0 : Int) ≤ 5 ∧ (5 : Int) < (GRID_SIZE : Int)) := by
  have hk : hasKey (UpdateGrid borderTriple) 0 1 = true := by
    rw [hasKey_UpdateGrid]
    refine ⟨by unfold inDomain GRID_SIZE; norm_num, ?_⟩
    decide
  have hg : hasKey (GenerateInitialConditions 1 (fun _ => 0) []) 5 5 = true := by
    rw [GenerateInitialConditions_eq_markLoop, hasKey_markLoop]
    refine Or.inr ⟨5, 5, by unfold GRID_SIZE; norm_num, by unfold GRID_SIZE; norm_num,
      rfl, rfl, ?_⟩
    simp
  exact ⟨(reachable_keys_in_domain borderTriple 1 (fun _ => 0) 0 0 1).1 hk,
    (reachable_keys_in_domain borderTriple 1 (fun _ => 0) 0 5 5).2.1 hg⟩

/-! ## Still lifes and oscillators -/

/-- The next state of a domain cell in a grid whose keys form a rectangle of cells. -/
theorem CalculateNextState_of_spans (g : SparseGrid) (lo1 hi1 lo2 hi2 : Int)
    (hg : ∀ u v, hasKey g u v = (inSpan lo1 hi1 u && inSpan lo2 hi2 v))
    (x y : Int) (hd : inDomain x y) :
    CalculateNextState g x y = true ↔
      specRule (inSpan lo1 hi1 x && inSpan lo2 hi2 y)
        ((if (inSpan lo1 hi1 (x + -1) && inSpan lo2 hi2 (y + -1)) = true then 1 else 0)
        + (if (inSpan lo1 hi1 (x + -1) && inSpan lo2 hi2 y) = true then 1 else 0)
        + (if (inSpan lo1 hi1 (x + -1) && inSpan lo2 hi2 (y + 1)) = true then 1 else 0)
        + (if (inSpan lo1 hi1 x && inSpan lo2 hi2 (y + -1)) = true then 1 else 0)
        + (if (inSpan lo1 hi1 x && inSpan lo2 hi2 (y + 1)) = true then 1 else 0)
        + (if (inSpan lo1 hi1 (x + 1) && inSpan lo2 hi2 (y + -1)) = true then 1 else 0)
        + (if (inSpan lo1 hi1 (x + 1) && inSpan lo2 hi2 y) = true then 1 else 0)
        + (if (inSpan lo1 hi1 (x + 1) && inSpan lo2 hi2 (y + 1)) = true then 1 else 0)) := by
  obtain ⟨hx, hy⟩ := inDomain_not_boundary x y hd
  rw [CalculateNextState_iff, GetNeighbours_eq_sum_exact g x y hx hy]
  simp only [hg, add_zero]

/-- The rule on a window of three rows and three columns cut from an interval of two rows and
an interval of two columns: exactly the cells of the rectangle are alive next. -/
theorem block_rule (r1 r2 r3 c1 c2 c3 : Bool)
    (hp : (r1 = false ∧ r2 = false ∧ r3 = false) ∨ (r1 = false ∧ r2 = false ∧ r3 = true) ∨
      (r1 = false ∧ r2 = true ∧ r3 = true) ∨ (r1 = true ∧ r2 = true ∧ r3 = false) ∨
      (r1 = true ∧ r2 = false ∧ r3 = false))
    (hq : (c1 = false ∧ c2 = false ∧ c3 = false) ∨ (c1 = false ∧ c2 = false ∧ c3 = true) ∨
      (c1 = false ∧ c2 = true ∧ c3 = true) ∨ (c1 = true ∧ c2 = true ∧ c3 = false) ∨
      (c1 = true ∧ c2 = false ∧ c3 = false)) :
    specRule (r2 && c2)
        ((if (r1 && c1) = true then 1 else 0)
        + (if (r1 && c2) = true then 1 else 0)
        + (if (r1 && c3) = true then 1 else 0)
        + (if (r2 && c1) = true then 1 else 0)
        + (if (r2 && c3) = true then 1 else 0)
        + (if (r3 && c1) = true then 1 else 0)
        + (if (r3 && c2) = true then 1 else 0)
        + (if (r3 && c3) = true then 1 else 0)) ↔ (r2 && c2) = true := by
  unfold specRule
  revert hp hq
  cases r1 <;> cases r2 <;> cases r3 <;> cases c1 <;> cases c2 <;> cases c3 <;> decide

/-- The rule on a window cut from an interval of three rows and a single column: alive next
are the cells of the middle row in the three columns around the column. -/
theorem line_rule_rows (r1 r2 r3 c1 c2 c3 : Bool)
    (hp : (r1 = false ∧ r2 = false ∧ r3 = false) ∨ (r1 = false ∧ r2 = false ∧ r3 = true) ∨
      (r1 = false ∧ r2 = true ∧ r3 = true) ∨ (r1 = true ∧ r2 = true ∧ r3 = true) ∨
      (r1 = true ∧ r2 = true ∧ r3 = false) ∨ (r1 = true ∧ r2 = false ∧ r3 = false))
    (hq : (c1 = false ∧ c2 = false ∧ c3 = false) ∨ (c1 = false ∧ c2 = false ∧ c3 = true) ∨
      (c1 = false ∧ c2 = true ∧ c3 = false) ∨ (c1 = true ∧ c2 = false ∧ c3 = false)) :
    specRule (r2 && c2)
        ((if (r1 && c1) = true then 1 else 0)
        + (if (r1 && c2) = true then 1 else 0)
        + (if (r1 && c3) = true then 1 else 0)
        + (if (r2 && c1) = true then 1 else 0)
        + (if (r2 && c3) = true then 1 else 0)
        + (if (r3 && c1) = true then 1 else 0)
        + (if (r3 && c2) = true then 1 else 0)
        + (if (r3 && c3) = true then 1 else 0)) ↔
      ((r1 && r2 && r3) && (c1 || c2 || c3)) = true := by
  unfold specRule
  revert hp hq
  cases r1 <;> cases r2 <;> cases r3 <;> cases c1 <;> cases c2 <;> cases c3 <;> decide

/-- The rule on a window cut from a single row and an interval of three columns. -/
theorem line_rule_cols (r1 r2 r3 c1 c2 c3 : Bool)
    (hp : (r1 = false ∧ r2 = false ∧ r3 = false) ∨ (r1 = false ∧ r2 = false ∧ r3 = true) ∨
      (r1 = false ∧ r2 = true ∧ r3 = false) ∨ (r1 = true ∧ r2 = false ∧ r3 = false))
    (hq : (c1 = false ∧ c2 = false ∧ c3 = false) ∨ (c1 = false ∧ c2 = false ∧ c3 = true) ∨
      (c1 = false ∧ c2 = true ∧ c3 = true) ∨ (c1 = true ∧ c2 = true ∧ c3 = true) ∨
      (c1 = true ∧ c2 = true ∧ c3 = false) ∨ (c1 = true ∧ c2 = false ∧ c3 = false)) :
    specRule (r2 && c2)
        ((if (r1 && c1) = true then 1 else 0)
        + (if (r1 && c2) = true then 1 else 0)
        + (if (r1 && c3) = true then 1 else 0)
        + (if (r2 && c1) = true then 1 else 0)
        + (if (r2 && c3) = true then 1 else 0)
        + (if (r3 && c1) = true then 1 else 0)
        + (if (r3 && c2) = true then 1 else 0)
        + (if (r3 && c3) = true then 1 else 0)) ↔
      ((r1 || r2 || r3) && (c1 && c2 && c3)) = true := by
  unfold specRule
  revert hp hq
  cases r1 <;> cases r2 <;> cases r3 <;> cases c1 <;> cases c2 <;> cases c3 <;> decide

/-- One step from the three cells `(a-1,b), (a,b), (a+1,b)` gives `(a,b-1), (a,b), (a,b+1)`. -/
theorem step_line_rows (a b : Int) (ha : 1 ≤ a ∧ a ≤ (GRID_SIZE : Int) - 2)
    (hb : 1 ≤ b ∧ b ≤ (GRID_SIZE : Int) - 2) (g : SparseGrid)
    (hg : ∀ x y, hasKey g x y = true ↔ ((x = a - 1 ∨ x = a ∨ x = a + 1) ∧ y = b))
    (x y : Int) :
    hasKey (UpdateGrid g) x y = true ↔ (x = a ∧ (y = b - 1 ∨ y = b ∨ y = b + 1)) := by
  have hg2 : ∀ u v, hasKey g u v = (inSpan (a - 1) (a + 1) u && inSpan b b v) := by
    intro u v
    rw [Bool.eq_iff_iff, hg]
    simp only [inSpan, Bool.and_eq_true, decide_eq_true_eq]
    omega
  rw [hasKey_UpdateGrid]
  by_cases hd : inDomain x y
  · rw [CalculateNextState_of_spans g _ _ _ _ hg2 x y hd]
    simp only [hd, true_and]
    rw [line_rule_rows]
    · simp only [inSpan, Bool.and_eq_true, Bool.or_eq_true, decide_eq_true_eq]
      omega
    · simp only [inSpan, decide_eq_true_eq, decide_eq_false_iff_not]
      omega
    · simp only [inSpan, decide_eq_true_eq, decide_eq_false_iff_not]
      omega
  · simp only [hd, false_and, false_iff]
    unfold inDomain at hd
    omega

/-- One step from the three cells `(a,b-1), (a,b), (a,b+1)` gives `(a-1,b), (a,b), (a+1,b)`. -/
theorem step_line_cols (a b : Int) (ha : 1 ≤ a ∧ a ≤ (GRID_SIZE : Int) - 2)
    (hb : 1 ≤ b ∧ b ≤ (GRID_SIZE : Int) - 2) (g : SparseGrid)
    (hg : ∀ x y, hasKey g x y = true ↔ (x = a ∧ (y = b - 1 ∨ y = b ∨ y = b + 1)))
    (x y : Int) :
    hasKey (UpdateGrid g) x y = true ↔ ((x = a - 1 ∨ x = a ∨ x = a + 1) ∧ y = b) := by
  have hg2 : ∀ u v, hasKey g u v = (inSpan a a u && inSpan (b - 1) (b + 1) v) := by
    intro u v
    rw [Bool.eq_iff_iff, hg]
    simp only [inSpan, Bool.and_eq_true, decide_eq_true_eq]
    omega
  rw [hasKey_UpdateGrid]
  by_cases hd : inDomain x y
  · rw [CalculateNextState_of_spans g _ _ _ _ hg2 x y hd]
    simp only [hd, true_and]
    rw [line_rule_cols]
    · simp only [inSpan, Bool.and_eq_true, Bool.or_eq_true, decide_eq_true_eq]
      omega
    · simp only [inSpan, decide_eq_true_eq, decide_eq_false_iff_not]
      omega
    · simp only [inSpan, decide_eq_true_eq, decide_eq_false_iff_not]
      omega
  · simp only [hd, false_and, false_iff]
    unfold inDomain at hd
    omega

theorem hasKey_block55 (x y : Int) :
    hasKey block55 x y = true ↔ ((x = 5 ∨ x = 5 + 1) ∧ (y = 5 ∨ y = 5 + 1)) := by
  unfold hasKey rowAt block55
  by_cases h5 : (5 : Int) = x
  · subst h5
    by_cases k5 : (5 : Int) = y
    · subst k5
      simp [mapLookup]
    · by_cases k6 : (6 : Int) = y
      · subst k6
        simp [mapLookup]
      · simp [mapLookup, k5, k6]
        omega
  · by_cases h6 : (6 : Int) = x
    · subst h6
      by_cases k5 : (5 : Int) = y
      · subst k5
        simp [mapLookup]
      · by_cases k6 : (6 : Int) = y
        · subst k6
          simp [mapLookup]
        · simp [mapLookup, k5, k6]
          omega
    · simp [mapLookup, h5, h6]
      omega

theorem hasKey_blinker55 (x y : Int) :
    hasKey blinker55 x y = true ↔ ((x = 5 - 1 ∨ x = 5 ∨ x = 5 + 1) ∧ y = 5) := by
  unfold hasKey rowAt blinker55
  by_cases h4 : (4 : Int) = x
  · subst h4
    by_cases k5 : (5 : Int) = y
    · subst k5
      simp [mapLookup]
    · simp [mapLookup, k5]
      omega
  · by_cases h5 : (5 : Int) = x
    · subst h5
      by_cases k5 : (5 : Int) = y
      · subst k5
        simp [mapLookup]
      · simp [mapLookup, k5]
        omega
    · by_cases h6 : (6 : Int) = x
      · subst h6
        by_cases k5 : (5 : Int) = y
        · subst k5
          simp [mapLookup]
        · simp [mapLookup, k5]
          omega
      · simp [mapLookup, h4, h5, h6]
        omega

/-- A grid without live cells has no cell that is alive next. -/
theorem CalculateNextState_of_no_key (g : SparseGrid) (hg : ∀ x y, hasKey g x y = false)
    (x y : Int) : CalculateNextState g x y = false := by
  rw [Bool.eq_false_iff]
  intro h
  rw [CalculateNextState_iff, GetNeighbours_eq_sum] at h
  simp [specRule, hg] at h

/-- C7: `UpdateGrid` of the empty grid is the empty grid: no outer row and no cell. The same
holds for every grid without live cells, such as one that holds empty rows only. -/
theorem UpdateGrid_empty :
    UpdateGrid [] = [] ∧
    ∀ g : SparseGrid, (∀ x y, hasKey g x y = false) → UpdateGrid g = [] := by
  have key : ∀ g : SparseGrid, (∀ x y, hasKey g x y = false) → UpdateGrid g = [] := by
    intro g hg
    rw [UpdateGrid_eq_markLoop]
    rw [markLoop_congr _ (fun _ _ => false) GRID_SIZE GRID_SIZE
      (fun i j _ _ => CalculateNextState_of_no_key g hg (i : Int) (j : Int))]
    exact markLoop_false GRID_SIZE GRID_SIZE []
  exact ⟨key [] hasKey_nil, key⟩

/-- Witness of C7 on a grid that holds one empty row and no cell. -/
theorem UpdateGrid_empty_witness : UpdateGrid [(3, [])] = [] :=
  UpdateGrid_empty.2 [(3, [])] (by
    intro x y
    unfold hasKey rowAt
    by_cases h : (3 : Int) = x <;> simp [mapLookup, h])

/-- C8: for `0 <= a`, `a+1 < GRID_SIZE`, `0 <= b`, `b+1 < GRID_SIZE`, every grid whose live
cells are exactly the block `{(a,b), (a,b+1), (a+1,b), (a+1,b+1)}` is a fixed point of
`UpdateGrid` as a set of live cells. -/
theorem block_still_life (a b : Int) (ha : 0 ≤ a ∧ a + 1 < (GRID_SIZE : Int))
    (hb : 0 ≤ b ∧ b + 1 < (GRID_SIZE : Int)) (g : SparseGrid)
    (hg : ∀ x y, hasKey g x y = true ↔ ((x = a ∨ x = a + 1) ∧ (y = b ∨ y = b + 1))) :
    ∀ x y, hasKey (UpdateGrid g) x y = hasKey g x y := by
  have hg2 : ∀ u v, hasKey g u v = (inSpan a (a + 1) u && inSpan b (b + 1) v) := by
    intro u v
    rw [Bool.eq_iff_iff, hg]
    simp only [inSpan, Bool.and_eq_true, decide_eq_true_eq]
    omega
  intro x y
  rw [Bool.eq_iff_iff, hasKey_UpdateGrid]
  by_cases hd : inDomain x y
  · rw [CalculateNextState_of_spans g _ _ _ _ hg2 x y hd, hg2 x y]
    simp only [hd, true_and]
    apply block_rule
    · simp only [inSpan, decide_eq_true_eq, decide_eq_false_iff_not]
      omega
    · simp only [inSpan, decide_eq_true_eq, decide_eq_false_iff_not]
      omega
  · have hn : ¬ hasKey g x y = true := by
      rw [hg]
      unfold inDomain at hd
      omega
    simp [hd, hn]

/-- Witness of C8: the block `{(5,5), (5,6), (6,5), (6,6)}` of the specification. -/
theorem block_still_life_witness :
    hasKey (UpdateGrid block55) 5 5 = true ∧ hasKey (UpdateGrid block55) 5 6 = true ∧
    hasKey (UpdateGrid block55) 6 5 = true ∧ hasKey (UpdateGrid block55) 6 6 = true ∧
    hasKey (UpdateGrid block55) 4 5 = false ∧ hasKey (UpdateGrid block55) 7 7 = false := by
  have h := block_still_life 5 5 (by unfold GRID_SIZE; norm_num)
    (by unfold GRID_SIZE; norm_num) block55 hasKey_block55
  refine ⟨?_, ?_, ?_, ?_, ?_, ?_⟩ <;> rw [h] <;> decide

/-- C9: for a centre `(a, b)` with `1 <= a, b <= GRID_SIZE-2`, `UpdateGrid` of a grid whose
live cells are exactly `{(a-1,b), (a,b), (a+1,b)}` has exactly the live cells
`{(a,b-1), (a,b), (a,b+1)}`, and `UpdateGrid` of that result has exactly
`{(a-1,b), (a,b), (a+1,b)}` again. -/
theorem blinker_period_two (a b : Int) (ha : 1 ≤ a ∧ a ≤ (GRID_SIZE : Int) - 2)
    (hb : 1 ≤ b ∧ b ≤ (GRID_SIZE : Int) - 2) (g : SparseGrid)
    (hg : ∀ x y, hasKey g x y = true ↔ ((x = a - 1 ∨ x = a ∨ x = a + 1) ∧ y = b)) :
    (∀ x y, hasKey (UpdateGrid g) x y = true ↔
      (x = a ∧ (y = b - 1 ∨ y = b ∨ y = b + 1))) ∧
    (∀ x y, hasKey (UpdateGrid (UpdateGrid g)) x y = true ↔
      ((x = a - 1 ∨ x = a ∨ x = a + 1) ∧ y = b)) := by
  have h1 := step_line_rows a b ha hb g hg
  exact ⟨h1, step_line_cols a b ha hb (UpdateGrid g) h1⟩

/-- Witness of C9: the blinker `{(4,5), (5,5), (6,5)}` of the specification, which steps to
`{(5,4), (5,5), (5,6)}` and back. -/
theorem blinker_period_two_witness :
    (hasKey (UpdateGrid blinker55) 5 4 = true ∧ hasKey (UpdateGrid blinker55) 5 5 = true ∧
      hasKey (UpdateGrid blinker55) 5 6 = true ∧ hasKey (UpdateGrid blinker55) 4 5 = false ∧
      hasKey (UpdateGrid blinker55) 6 5 = false) ∧
    (hasKey (UpdateGrid (UpdateGrid blinker55)) 4 5 = true ∧
      hasKey (UpdateGrid (UpdateGrid blinker55)) 5 5 = true ∧
      hasKey (UpdateGrid (UpdateGrid blinker55)) 6 5 = true ∧
      hasKey (UpdateGrid (UpdateGrid blinker55)) 5 4 = false ∧
      hasKey (UpdateGrid (UpdateGrid blinker55)) 5 6 = false) := by
  have h := blinker_period_two 5 5 (by unfold GRID_SIZE; norm_num)
    (by unfold GRID_SIZE; norm_num) blinker55 hasKey_blinker55
  refine ⟨⟨?_, ?_, ?_, ?_, ?_⟩, ⟨?_, ?_, ?_, ?_, ?_⟩⟩
  · exact (h.1 5 4).mpr (by norm_num)
  · exact (h.1 5 5).mpr (by norm_num)
  · exact (h.1 5 6).mpr (by norm_num)
  · rw [Bool.eq_false_iff]
    intro hk
    have := (h.1 4 5).mp hk
    norm_num at this
  · rw [Bool.eq_false_iff]
    intro hk
    have := (h.1 6 5).mp hk
    norm_num at this
  · exact (h.2 4 5).mpr (by norm_num)
  · exact (h.2 5 5).mpr (by norm_num)
  · exact (h.2 6 5).mpr (by norm_num)
  · rw [Bool.eq_false_iff]
    intro hk
    have := (h.2 5 4).mp hk
    norm_num at this
  · rw [Bool.eq_false_iff]
    intro hk
    have := (h.2 5 6).mp hk
    norm_num at this

/-! ## Workers under a single lock -/

theorem lockInv_init (g0 : SparseGrid) : LockInv g0 (initShared g0) := by
  refine ⟨rfl, rfl, ?_, ?_, ?_⟩
  · intro i h
    exact absurd rfl h
  · intro i j h
    exact absurd rfl h
  · intro i v h
    simp [initShared] at h

theorem setPc_same (pcs : Nat → WorkerPc) (i : Nat) (p : WorkerPc) : setPc pcs i p i = p := by
  simp [setPc]

theorem setPc_other (pcs : Nat → WorkerPc) (i j : Nat) (p : WorkerPc) (h : j ≠ i) :
    setPc pcs i p j = pcs j := by
  simp [setPc, h]

theorem lockInv_step (g0 : SparseGrid) (s : Shared) (i : Nat) (h : LockInv g0 s) :
    LockInv g0 (workerStep s i) := by
  obtain ⟨h1, h2, h3, h4, h5⟩ := h
  unfold workerStep
  cases hp : s.pcs i with
  | atLock =>
    simp only
    by_cases hl : s.locked = true
    · rw [if_pos hl]
      exact ⟨h1, h2, h3, h4, h5⟩
    · rw [if_neg hl]
      have hall : ∀ j, s.pcs j = WorkerPc.atLock := by
        intro j
        by_contra hj
        exact hl (h3 j hj)
      refine ⟨h1, h2, fun _ _ => rfl, ?_, ?_⟩
      · intro a b ha hb
        dsimp only at ha hb
        by_cases ea : a = i
        · by_cases eb : b = i
          · rw [ea, eb]
          · rw [setPc_other _ _ _ _ eb] at hb
            exact absurd (hall b) hb
        · rw [setPc_other _ _ _ _ ea] at ha
          exact absurd (hall a) ha
      · intro a v ha
        dsimp only at ha ⊢
        by_cases ea : a = i
        · rw [ea, setPc_same] at ha
          cases ha
        · rw [setPc_other _ _ _ _ ea, hall a] at ha
          cases ha
  | atRead =>
    simp only
    have hi : s.pcs i ≠ WorkerPc.atLock := by rw [hp]; intro e; cases e
    have hothers : ∀ j, j ≠ i → s.pcs j = WorkerPc.atLock := by
      intro j hj
      by_contra hc
      exact hj (h4 j i hc hi)
    refine ⟨h1, h2, fun _ _ => h3 i hi, ?_, ?_⟩
    · intro a b ha hb
      dsimp only at ha hb
      by_cases ea : a = i
      · by_cases eb : b = i
        · rw [ea, eb]
        · rw [setPc_other _ _ _ _ eb] at hb
          exact absurd (hothers b eb) hb
      · rw [setPc_other _ _ _ _ ea] at ha
        exact absurd (hothers a ea) ha
    · intro a v ha
      dsimp only at ha ⊢
      by_cases ea : a = i
      · rw [ea, setPc_same] at ha
        cases ha
        rfl
      · rw [setPc_other _ _ _ _ ea, hothers a ea] at ha
        cases ha
  | atWrite v =>
    simp only
    have hi : s.pcs i ≠ WorkerPc.atLock := by rw [hp]; intro e; cases e
    have hothers : ∀ j, j ≠ i → s.pcs j = WorkerPc.atLock := by
      intro j hj
      by_contra hc
      exact hj (h4 j i hc hi)
    have hv : v = s.grid := h5 i v hp
    refine ⟨?_, ?_, fun _ _ => h3 i hi, ?_, ?_⟩
    · show UpdateGrid v = UpdateGrid^[s.advances + 1] g0
      rw [Function.iterate_succ_apply', ← h1, hv]
    · show s.log ++ [(v, UpdateGrid v)] = _
      rw [List.range_succ, List.map_append, ← h2, hv, h1]
      simp [Function.iterate_succ_apply']
    · intro a b ha hb
      dsimp only at ha hb
      by_cases ea : a = i
      · by_cases eb : b = i
        · rw [ea, eb]
        · rw [setPc_other _ _ _ _ eb] at hb
          exact absurd (hothers b eb) hb
      · rw [setPc_other _ _ _ _ ea] at ha
        exact absurd (hothers a ea) ha
    · intro a w ha
      dsimp only at ha ⊢
      by_cases ea : a = i
      · rw [ea, setPc_same] at ha
        cases ha
      · rw [setPc_other _ _ _ _ ea, hothers a ea] at ha
        cases ha
  | atUnlock =>
    simp only
    have hi : s.pcs i ≠ WorkerPc.atLock := by rw [hp]; intro e; cases e
    have hothers : ∀ j, j ≠ i → s.pcs j = WorkerPc.atLock := by
      intro j hj
      by_contra hc
      exact hj (h4 j i hc hi)
    have hall : ∀ j, setPc s.pcs i WorkerPc.atLock j = WorkerPc.atLock := by
      intro j
      by_cases ej : j = i
      · rw [ej, setPc_same]
      · rw [setPc_other _ _ _ _ ej, hothers j ej]
    refine ⟨h1, h2, ?_, ?_, ?_⟩
    · intro a ha
      dsimp only at ha
      exact absurd (hall a) ha
    · intro a b ha
      dsimp only at ha
      exact absurd (hall a) ha
    · intro a w ha
      dsimp only at ha ⊢
      rw [hall a] at ha
      cases ha

theorem lockInv_run (g0 : SparseGrid) (n : Nat) (sched : List Nat) (s : Shared)
    (h : LockInv g0 s) : LockInv g0 (runWorkers n s sched) := by
  induction sched generalizing s with
  | nil => exact h
  | cons i rest ih =>
    unfold runWorkers
    rw [List.foldl_cons]
    apply ih
    by_cases hi : i < n
    · rw [if_pos hi]
      exact lockInv_step g0 s i h
    · rw [if_neg hi]
      exact h

theorem runWorkers_append (n : Nat) (s : Shared) (l1 l2 : List Nat) :
    runWorkers n s (l1 ++ l2) = runWorkers n (runWorkers n s l1) l2 := by
  unfold runWorkers
  rw [List.foldl_append]

/-- Four consecutive steps of worker 0 from a state in which it is before `LOCK.Lock()` and
the mutex is free: one call of `UpdateGridThread`, which completes one store. -/
theorem runWorkers_round (n : Nat) (s : Shared) (hp : s.pcs 0 = WorkerPc.atLock)
    (hl : s.locked = false) :
    (runWorkers (n + 1) s [0, 0, 0, 0]).pcs 0 = WorkerPc.atLock ∧
    (runWorkers (n + 1) s [0, 0, 0, 0]).locked = false ∧
    (runWorkers (n + 1) s [0, 0, 0, 0]).advances = s.advances + 1 ∧
    (runWorkers (n + 1) s [0, 0, 0, 0]).grid = UpdateGrid s.grid := by
  simp [runWorkers, workerStep, hp, hl, setPc]

/-- Every number of completed stores is reached by some schedule, as soon as there is a
worker: the lock discipline never stops the computation. -/
theorem advances_attainable (n : Nat) (g0 : SparseGrid) (m : Nat) :
    (runWorkers (n + 1) (initShared g0) (List.replicate (4 * m) 0)).advances = m := by
  have key : ∀ k (s : Shared), s.pcs 0 = WorkerPc.atLock → s.locked = false →
      (runWorkers (n + 1) s (List.replicate (4 * k) 0)).advances = s.advances + k := by
    intro k
    induction k with
    | zero =>
      intro s _ _
      rfl
    | succ k ih =>
      intro s hp hl
      have e : List.replicate (4 * (k + 1)) 0 = [0, 0, 0, 0] ++ List.replicate (4 * k) 0 := by
        rw [show 4 * (k + 1) = 4 + 4 * k by ring, List.replicate_add]
        rfl
      obtain ⟨r1, r2, r3, _⟩ := runWorkers_round n s hp hl
      rw [e, runWorkers_append, ih _ r1 r2, r3]
      omega
  have h := key m (initShared g0) rfl rfl
  rw [h]
  simp [initShared]

theorem callInv_init (n : Nat) (g0 : SparseGrid) : CallInv n (initShared g0) 0 0 := by
  constructor
  · intro _
    exact ⟨rfl, rfl⟩
  · intro h
    simp [initShared] at h

/-- One step of a worker keeps the relation between acquisitions, completed calls and
stores. -/
theorem callInv_step (g0 : SparseGrid) (n : Nat) (s : Shared) (a c i : Nat) (hi : i < n)
    (hl : LockInv g0 s) (hc : CallInv n s a c) :
    CallInv n (workerStep s i)
      (a + (if ((s.pcs i).isAtLock && !s.locked) = true then 1 else 0))
      (c + (if (s.pcs i).isAtUnlock = true then 1 else 0)) := by
  obtain ⟨_, _, h3, h4, _⟩ := hl
  obtain ⟨hfree, hheld⟩ := hc
  unfold workerStep
  cases hp : s.pcs i with
  | atLock =>
    simp only [WorkerPc.isAtLock, WorkerPc.isAtUnlock, Bool.true_and, Bool.false_eq_true,
      if_false, Nat.add_zero]
    by_cases hlk : s.locked = true
    · rw [if_pos hlk]
      simp only [hlk, Bool.not_true, Bool.false_eq_true, if_false, Nat.add_zero]
      exact ⟨hfree, hheld⟩
    · rw [if_neg hlk]
      have hlf : s.locked = false := by simpa using hlk
      obtain ⟨e1, e2⟩ := hfree hlf
      simp only [hlf, Bool.not_false, if_true]
      constructor
      · intro hcontra
        cases hcontra
      · intro _
        refine ⟨i, hi, ?_, by rw [e1], ?_, ?_⟩
        · dsimp only
          rw [setPc_same]
          intro e
          cases e
        · dsimp only
          rw [setPc_same]
          intro e
          cases e
        · intro _
          exact e2
  | atRead =>
    simp only [WorkerPc.isAtLock, WorkerPc.isAtUnlock, Bool.false_and, Bool.false_eq_true,
      if_false, Nat.add_zero]
    have hne : s.pcs i ≠ WorkerPc.atLock := by rw [hp]; intro e; cases e
    have hlk : s.locked = true := h3 i hne
    obtain ⟨j, _, hj1, hj2, _, hj4⟩ := hheld hlk
    have hji : j = i := h4 j i hj1 hne
    rw [hji] at hj4
    have hadv : s.advances = c := hj4 (by rw [hp]; intro e; cases e)
    constructor
    · intro hcontra
      dsimp only at hcontra
      rw [hlk] at hcontra
      cases hcontra
    · intro _
      refine ⟨i, hi, ?_, hj2, ?_, ?_⟩
      · dsimp only
        rw [setPc_same]
        intro e
        cases e
      · dsimp only
        rw [setPc_same]
        intro e
        cases e
      · intro _
        exact hadv
  | atWrite v =>
    simp only [WorkerPc.isAtLock, WorkerPc.isAtUnlock, Bool.false_and, Bool.false_eq_true,
      if_false, Nat.add_zero]
    have hne : s.pcs i ≠ WorkerPc.atLock := by rw [hp]; intro e; cases e
    have hlk : s.locked = true := h3 i hne
    obtain ⟨j, _, hj1, hj2, _, hj4⟩ := hheld hlk
    have hji : j = i := h4 j i hj1 hne
    rw [hji] at hj4
    have hadv : s.advances = c := hj4 (by rw [hp]; intro e; cases e)
    constructor
    · intro hcontra
      dsimp only at hcontra
      rw [hlk] at hcontra
      cases hcontra
    · intro _
      refine ⟨i, hi, ?_, hj2, ?_, ?_⟩
      · dsimp only
        rw [setPc_same]
        intro e
        cases e
      · intro _
        dsimp only
        rw [hadv]
      · intro hcontra
        dsimp only at hcontra
        rw [setPc_same] at hcontra
        exact absurd rfl hcontra
  | atUnlock =>
    simp only [WorkerPc.isAtLock, WorkerPc.isAtUnlock, Bool.false_and, Bool.false_eq_true,
      if_false, if_true, Nat.add_zero]
    have hne : s.pcs i ≠ WorkerPc.atLock := by rw [hp]; intro e; cases e
    have hlk : s.locked = true := h3 i hne
    obtain ⟨j, _, hj1, hj2, hj3, _⟩ := hheld hlk
    have hji : j = i := h4 j i hj1 hne
    rw [hji] at hj3
    have hadv : s.advances = c + 1 := hj3 hp
    constructor
    · intro _
      exact ⟨hj2, hadv⟩
    · intro hcontra
      cases hcontra

theorem observeRun_invariant (g0 : SparseGrid) (n : Nat) (sched : List Nat) (s : Shared)
    (a c : Nat) (hl : LockInv g0 s) (hc : CallInv n s a c) :
    (sched.foldl (observeStep n) (s, a, c)).1 = runWorkers n s sched ∧
    CallInv n (runWorkers n s sched) (sched.foldl (observeStep n) (s, a, c)).2.1
      (sched.foldl (observeStep n) (s, a, c)).2.2 := by
  induction sched generalizing s a c with
  | nil => exact ⟨rfl, hc⟩
  | cons i rest ih =>
    unfold runWorkers
    rw [List.foldl_cons, List.foldl_cons]
    by_cases hi : i < n
    · have e : observeStep n (s, a, c) i =
          (workerStep s i,
            a + (if ((s.pcs i).isAtLock && !s.locked) = true then 1 else 0),
            c + (if (s.pcs i).isAtUnlock = true then 1 else 0)) := by
        unfold observeStep
        rw [if_pos hi]
      rw [e, if_pos hi]
      exact ih (workerStep s i) _ _ (lockInv_step g0 s i hl) (callInv_step g0 n s a c i hi hl hc)
    · have e : observeStep n (s, a, c) i = (s, a, c) := by
        unfold observeStep
        rw [if_neg hi]
      rw [e, if_neg hi]
      exact ih s a c hl hc

/-- The relation between the event counters and the stores after any schedule. -/
theorem callInv_run (g0 : SparseGrid) (n : Nat) (sched : List Nat) :
    CallInv n (runWorkers n (initShared g0) sched)
      (acquisitions n (initShared g0) sched) (completedCalls n (initShared g0) sched) :=
  (observeRun_invariant g0 n sched (initShared g0) 0 0 (lockInv_init g0)
    (callInv_init n g0)).2

/-- Worker 0 alone, scheduled for `4 * k` steps from a state in which it stands before
`LOCK.Lock()` with the mutex free: it ends there again. -/
theorem rounds_end_free (n : Nat) (k : Nat) (s : Shared) (hp : s.pcs 0 = WorkerPc.atLock)
    (hl : s.locked = false) :
    (runWorkers (n + 1) s (List.replicate (4 * k) 0)).locked = false ∧
    (runWorkers (n + 1) s (List.replicate (4 * k) 0)).advances = s.advances + k := by
  induction k generalizing s with
  | zero => exact ⟨hl, rfl⟩
  | succ k ih =>
    have e : List.replicate (4 * (k + 1)) 0 = [0, 0, 0, 0] ++ List.replicate (4 * k) 0 := by
      rw [show 4 * (k + 1) = 4 + 4 * k by ring, List.replicate_add]
      rfl
    obtain ⟨r1, r2, r3, _⟩ := runWorkers_round n s hp hl
    obtain ⟨i1, i2⟩ := ih _ r1 r2
    rw [e, runWorkers_append]
    refine ⟨i1, ?_⟩
    rw [i2, r3]
    omega

/-- C10: `n` workers that each run `for { UpdateGridThread(&grid) }` on the one shared grid,
under every interleaving of their steps (lock, read of the grid, store of the result, unlock).
After any schedule the shared grid is `UpdateGrid` applied to the initial grid once per store,
and store `k` read the result of store `k-1` and wrote `UpdateGrid` of it. The stores are tied
to the lock events of the run: every acquisition performs exactly one store before its
release, so the completed calls, the stores and the acquisitions differ by at most the one
call in progress; whenever the mutex is free, `m` acquisitions have been made, `m` calls are
complete and the grid is `UpdateGrid` applied `m` times. With at least one worker every `m`
is reached by some schedule. No transition is lost, duplicated or torn. -/
theorem workers_advance_sequentially (n : Nat) (g0 : SparseGrid) (sched : List Nat) :
    (runWorkers n (initShared g0) sched).grid =
      UpdateGrid^[(runWorkers n (initShared g0) sched).advances] g0 ∧
    (runWorkers n (initShared g0) sched).log =
      (List.range (runWorkers n (initShared g0) sched).advances).map
        (fun k => (UpdateGrid^[k] g0, UpdateGrid^[k + 1] g0)) ∧
    (completedCalls n (initShared g0) sched ≤ (runWorkers n (initShared g0) sched).advances ∧
      (runWorkers n (initShared g0) sched).advances ≤ acquisitions n (initShared g0) sched ∧
      acquisitions n (initShared g0) sched ≤ completedCalls n (initShared g0) sched + 1) ∧
    ((runWorkers n (initShared g0) sched).locked = false →
      acquisitions n (initShared g0) sched = completedCalls n (initShared g0) sched ∧
      (runWorkers n (initShared g0) sched).advances =
        completedCalls n (initShared g0) sched ∧
      (runWorkers n (initShared g0) sched).grid =
        UpdateGrid^[completedCalls n (initShared g0) sched] g0) ∧
    (0 < n → ∀ m : Nat, ∃ sched2 : List Nat,
      (runWorkers n (initShared g0) sched2).locked = false ∧
      acquisitions n (initShared g0) sched2 = m ∧
      completedCalls n (initShared g0) sched2 = m ∧
      (runWorkers n (initShared g0) sched2).grid = UpdateGrid^[m] g0) := by
  have h := lockInv_run g0 n sched (initShared g0) (lockInv_init g0)
  have hc := callInv_run g0 n sched
  have free_case : ∀ sched2 : List Nat,
      (runWorkers n (initShared g0) sched2).locked = false →
      acquisitions n (initShared g0) sched2 = completedCalls n (initShared g0) sched2 ∧
      (runWorkers n (initShared g0) sched2).advances =
        completedCalls n (initShared g0) sched2 ∧
      (runWorkers n (initShared g0) sched2).grid =
        UpdateGrid^[completedCalls n (initShared g0) sched2] g0 := by
    intro sched2 hf
    obtain ⟨e1, e2⟩ := (callInv_run g0 n sched2).free hf
    refine ⟨e1, e2, ?_⟩
    rw [← e2]
    exact (lockInv_run g0 n sched2 (initShared g0) (lockInv_init g0)).grid_eq
  refine ⟨h.grid_eq, h.log_eq, ?_, free_case sched, ?_⟩
  · cases hlk : (runWorkers n (initShared g0) sched).locked with
    | false =>
      obtain ⟨e1, e2⟩ := hc.free hlk
      omega
    | true =>
      obtain ⟨j, _, _, e1, e2, e3⟩ := hc.held hlk
      by_cases hj : (runWorkers n (initShared g0) sched).pcs j = WorkerPc.atUnlock
      · have := e2 hj
        omega
      · have := e3 hj
        omega
  · intro hn m
    obtain ⟨k, rfl⟩ : ∃ k, n = k + 1 := ⟨n - 1, by omega⟩
    obtain ⟨r1, r2⟩ := rounds_end_free k m (initShared g0) rfl rfl
    obtain ⟨f1, f2, f3⟩ := free_case (List.replicate (4 * m) 0) r1
    have hm : completedCalls (k + 1) (initShared g0) (List.replicate (4 * m) 0) = m := by
      rw [← f2, r2]
      simp [initShared]
    refine ⟨List.replicate (4 * m) 0, r1, ?_, hm, ?_⟩
    · rw [f1, hm]
    · rw [f3, hm]

/-- Witness of C10: two workers on the blinker under an interleaved schedule in which worker
1 is blocked at `LOCK.Lock()` while worker 0 holds the mutex. The run ends with the mutex
free after two acquisitions and two completed calls, and some schedule completes three. -/
theorem workers_advance_sequentially_witness :
    (acquisitions 2 (initShared blinker55) twoWorkerSchedule = 2 ∧
      completedCalls 2 (initShared blinker55) twoWorkerSchedule = 2 ∧
      (runWorkers 2 (initShared blinker55) twoWorkerSchedule).grid =
        UpdateGrid^[2] blinker55) ∧
    (∃ sched2 : List Nat,
      (runWorkers 2 (initShared blinker55) sched2).locked = false ∧
      acquisitions 2 (initShared blinker55) sched2 = 3 ∧
      completedCalls 2 (initShared blinker55) sched2 = 3 ∧
      (runWorkers 2 (initShared blinker55) sched2).grid = UpdateGrid^[3] blinker55) := by
  have h := workers_advance_sequentially 2 blinker55 twoWorkerSchedule
  have hc : completedCalls 2 (initShared blinker55) twoWorkerSchedule = 2 := by decide
  obtain ⟨e1, _, e3⟩ := h.2.2.2.1 (by decide)
  refine ⟨⟨?_, hc, ?_⟩, h.2.2.2.2 (by decide) 3⟩
  · rw [e1, hc]
  · rw [e3, hc]

/-! ## One caller of `UpdateGridThread` -/

theorem heapRead_append_left (h : GridHeap) (g : SparseGrid) (r : Nat) (hr : r < h.length) :
    heapRead (h ++ [g]) r = heapRead h r := by
  unfold heapRead
  exact List.getD_append h [g] [] r hr

theorem heapRead_append_last (h : GridHeap) (g : SparseGrid) :
    heapRead (h ++ [g]) h.length = g := by
  unfold heapRead
  rw [List.getD_append_right h [g] [] h.length (Nat.le_refl _)]
  simp

theorem heapWrite_append_last (h : GridHeap) (g g2 : SparseGrid) :
    heapWrite (h ++ [g]) h.length g2 = h ++ [g2] := by
  unfold heapWrite
  rw [List.set_append_right h.length g2 (Nat.le_refl _)]
  simp

/-- The heap run of `UpdateGrid` appends one object, the pure `UpdateGrid` of the argument,
and leaves every other object as it was. -/
theorem UpdateGridAt_eq (h : GridHeap) (r : Nat) (hr : r < h.length) :
    UpdateGridAt h r = (h ++ [UpdateGrid (heapRead h r)], h.length) := by
  have key : (List.range GRID_SIZE).foldl (fun hp (x : Nat) =>
      (List.range GRID_SIZE).foldl (fun hp (y : Nat) =>
        if CalculateNextState (heapRead hp r) (x : Int) (y : Int) then
          heapWrite hp h.length (markAlive (heapRead hp h.length) (x : Int) (y : Int))
        else hp) hp) (h ++ [[]]) = h ++ [UpdateGrid (heapRead h r)] := by
    unfold UpdateGrid
    apply List.foldl_hom (fun acc : SparseGrid => h ++ [acc])
    intro acc x
    apply List.foldl_hom (fun acc : SparseGrid => h ++ [acc])
    intro acc2 y
    rw [heapRead_append_left h acc2 r hr, heapRead_append_last, heapWrite_append_last]
    split <;> rfl
  unfold UpdateGridAt
  rw [key]

theorem UpdateGridThread_eq (s : SlotState) (hl : s.locked = false)
    (hs : s.slot < s.heap.length) :
    UpdateGridThread s =
      some (SlotState.mk (s.heap ++ [UpdateGrid (heapRead s.heap s.slot)])
        s.heap.length false) := by
  unfold UpdateGridThread
  rw [if_neg (by rw [hl]; exact Bool.false_ne_true)]
  dsimp only
  rw [UpdateGridAt_eq s.heap s.slot hs]

theorem callsOfThread_eq (m : Nat) (s : SlotState) (hl : s.locked = false)
    (hs : s.slot < s.heap.length) :
    ∃ sm, callsOfThread m s = some sm ∧ sm.locked = false ∧ sm.slot < sm.heap.length ∧
      s.heap.length ≤ sm.heap.length ∧
      heapRead sm.heap sm.slot = UpdateGrid^[m] (heapRead s.heap s.slot) ∧
      ∀ r, r < s.heap.length → heapRead sm.heap r = heapRead s.heap r := by
  induction m with
  | zero => exact ⟨s, rfl, hl, hs, Nat.le_refl _, rfl, fun _ _ => rfl⟩
  | succ m ih =>
    obtain ⟨sm, h1, h2, h3, hlen, h4, h5⟩ := ih
    refine ⟨SlotState.mk (sm.heap ++ [UpdateGrid (heapRead sm.heap sm.slot)])
      sm.heap.length false, ?_, rfl, ?_, ?_, ?_, ?_⟩
    · show (callsOfThread m s).bind UpdateGridThread = _
      rw [h1, Option.some_bind, UpdateGridThread_eq sm h2 h3]
    · show sm.heap.length < (sm.heap ++ [_]).length
      simp
    · show s.heap.length ≤ (sm.heap ++ [_]).length
      rw [List.length_append]
      exact Nat.le_trans hlen (Nat.le_add_right _ _)
    · show heapRead (sm.heap ++ [_]) sm.heap.length = _
      rw [heapRead_append_last, h4, Function.iterate_succ_apply']
    · intro r hr
      show heapRead (sm.heap ++ [_]) r = _
      rw [heapRead_append_left _ _ r (Nat.lt_of_lt_of_le hr hlen), h5 r hr]

/-- C11: on the explicit state (heap of grid objects, shared slot, lock held or free), one
call of `UpdateGridThread` started with the lock free and the slot pointing to a grid returns
with the slot holding exactly `UpdateGrid` of the previous grid, one step, and with the lock
free again; the previous grid object, like every object allocated before, is not modified.
Consequently `m` successive calls leave the slot holding the `m`-fold iterate of `UpdateGrid`
on the initial grid, with the lock free. -/
theorem UpdateGridThread_one_generation (s : SlotState) (hl : s.locked = false)
    (hs : s.slot < s.heap.length) (m : Nat) :
    (∃ s1, UpdateGridThread s = some s1 ∧
      heapRead s1.heap s1.slot = UpdateGrid (heapRead s.heap s.slot) ∧
      s1.locked = false ∧
      heapRead s1.heap s.slot = heapRead s.heap s.slot ∧
      ∀ r, r < s.heap.length → heapRead s1.heap r = heapRead s.heap r) ∧
    (∃ sm, callsOfThread m s = some sm ∧
      heapRead sm.heap sm.slot = UpdateGrid^[m] (heapRead s.heap s.slot) ∧
      sm.locked = false ∧
      ∀ r, r < s.heap.length → heapRead sm.heap r = heapRead s.heap r) := by
  constructor
  · refine ⟨_, UpdateGridThread_eq s hl hs, ?_, rfl, ?_, ?_⟩
    · exact heapRead_append_last s.heap _
    · exact heapRead_append_left s.heap _ s.slot hs
    · intro r hr
      exact heapRead_append_left s.heap _ r hr
  · obtain ⟨sm, h1, h2, _, _, h4, h5⟩ := callsOfThread_eq m s hl hs
    exact ⟨sm, h1, h4, h2, h5⟩

/-- Witness of C11: one call and two successive calls on the slot that holds the blinker. -/
theorem UpdateGridThread_one_generation_witness :
    (UpdateGridThread blinkerSlot).isSome = true ∧
    (callsOfThread 2 blinkerSlot).isSome = true := by
  obtain ⟨⟨s1, h1, _⟩, ⟨sm, hm, _⟩⟩ :=
    UpdateGridThread_one_generation blinkerSlot rfl (by decide) 2
  rw [h1, hm]
  exact ⟨rfl, rfl⟩

/-! ## The generator at the two ends of the density range -/

/-- The keys of the generated grid: the domain cells whose draw is at most the density. -/
theorem hasKey_GenerateInitialConditions (density : ℚ) (draws : Nat → ℚ) (x y : Int) :
    hasKey (GenerateInitialConditions density draws []) x y = true ↔
      ∃ i j : Nat, i < GRID_SIZE ∧ j < GRID_SIZE ∧ (i : Int) = x ∧ (j : Int) = y ∧
        draws (i * GRID_SIZE + j) ≤ density := by
  rw [GenerateInitialConditions_eq_markLoop, hasKey_markLoop]
  simp only [hasKey_nil, Bool.false_eq_true, false_or, decide_eq_true_eq]

/-- Counterexample to C12: the draws `0.0, 0.5, 0.5, ...` all lie in `[0, 1)`, yet with
density 0 the comparison `rand.Float64() <= DENSITY` holds at the first draw and
`GenerateInitialConditions` marks the cell `(0, 0)`: the grid generated from the empty grid is
not empty. -/
theorem GenerateInitialConditions_density_zero_marks :
    (∀ k, 0 ≤ zeroFirstDraws k ∧ zeroFirstDraws k < 1) ∧
    hasKey (GenerateInitialConditions 0 zeroFirstDraws []) 0 0 = true ∧
    GenerateInitialConditions 0 zeroFirstDraws [] ≠ [] := by
  have hk : hasKey (GenerateInitialConditions 0 zeroFirstDraws []) 0 0 = true := by
    rw [hasKey_GenerateInitialConditions]
    refine ⟨0, 0, by unfold GRID_SIZE; norm_num, by unfold GRID_SIZE; norm_num, rfl, rfl, ?_⟩
    simp [zeroFirstDraws]
  refine ⟨?_, hk, ?_⟩
  · intro k
    unfold zeroFirstDraws
    by_cases h : k = 0
    · simp [h]
    · simp only [h, if_false]
      norm_num
  · intro he
    rw [he, hasKey_nil] at hk
    exact Bool.false_ne_true hk

/-! ## Lemmas on live cells -/

theorem mem_mapKeys {V : Type} (m : GoMap V) (k : Int) :
    k ∈ mapKeys m ↔ (mapLookup m k).isSome = true := by
  unfold mapKeys
  rw [List.mem_dedup]
  induction m with
  | nil => simp [mapLookup]
  | cons hd tl ih =>
    obtain ⟨a, w⟩ := hd
    by_cases h : a = k
    · simp [mapLookup, h]
    · have h2 : ¬ k = a := fun e => h e.symm
      simp only [List.map_cons, List.mem_cons, h2, false_or, mapLookup, h, if_false]
      exact ih

theorem hasKey_row_present (g : SparseGrid) (x y : Int) (h : hasKey g x y = true) :
    (mapLookup g x).isSome = true := by
  unfold hasKey rowAt at h
  cases hm : mapLookup g x with
  | none => simp [hm, mapLookup] at h
  | some row => rfl

theorem mem_liveCells (g : SparseGrid) (x y : Int) :
    (x, y) ∈ liveCells g ↔ hasKey g x y = true := by
  unfold liveCells
  rw [List.mem_flatMap]
  constructor
  · rintro ⟨a, _, ha2⟩
    rw [List.mem_map] at ha2
    obtain ⟨b, hb, hab⟩ := ha2
    cases hab
    exact (mem_mapKeys (rowAt g x) y).mp hb
  · intro h
    refine ⟨x, (mem_mapKeys g x).mpr (hasKey_row_present g x y h), ?_⟩
    rw [List.mem_map]
    exact ⟨y, (mem_mapKeys (rowAt g x) y).mpr h, rfl⟩

theorem nodup_liveCells (g : SparseGrid) : (liveCells g).Nodup := by
  unfold liveCells
  rw [List.nodup_flatMap]
  constructor
  · intro x _
    apply List.Nodup.map
    · intro a b hab
      cases hab
      rfl
    · exact List.nodup_dedup _
  · apply List.Nodup.pairwise_of_forall_ne (List.nodup_dedup _)
    intro a _ b _ hab
    intro c hca hcb
    rw [List.mem_map] at hca hcb
    obtain ⟨u, _, hu⟩ := hca
    obtain ⟨v, _, hv⟩ := hcb
    rw [← hu] at hv
    cases hv
    exact hab rfl

theorem mem_domainCells (x y : Int) : (x, y) ∈ domainCells ↔ inDomain x y := by
  unfold domainCells inDomain
  simp only [List.mem_flatMap, List.mem_map, List.mem_range, Prod.mk.injEq]
  constructor
  · rintro ⟨i, hi, j, hj, rfl, rfl⟩
    omega
  · rintro ⟨h1, h2, h3, h4⟩
    exact ⟨x.toNat, by omega, y.toNat, by omega, by omega, by omega⟩

theorem nodup_domainCells : domainCells.Nodup := by
  unfold domainCells
  rw [List.nodup_flatMap]
  constructor
  · intro x _
    apply List.Nodup.map
    · intro a b hab
      simp only [Prod.mk.injEq, Nat.cast_inj, true_and] at hab
      exact hab
    · exact List.nodup_range _
  · apply List.Nodup.pairwise_of_forall_ne (List.nodup_range _)
    intro a _ b _ hab
    intro c hca hcb
    rw [List.mem_map] at hca hcb
    obtain ⟨u, _, hu⟩ := hca
    obtain ⟨v, _, hv⟩ := hcb
    rw [← hu] at hv
    simp only [Prod.mk.injEq, Nat.cast_inj] at hv
    exact hab hv.1.symm

theorem length_cells (n m : Nat) :
    ((List.range n).flatMap (fun (x : Nat) =>
      (List.range m).map (fun (y : Nat) => ((x : Int), (y : Int))))).length = n * m := by
  rw [List.length_flatMap]
  have e : (List.length ∘ fun (x : Nat) =>
      (List.range m).map (fun (y : Nat) => ((x : Int), (y : Int)))) = fun _ => m := by
    funext x
    simp
  rw [e]
  simp

theorem length_domainCells : domainCells.length = GRID_SIZE * GRID_SIZE :=
  length_cells GRID_SIZE GRID_SIZE

/-- The live cells of a grid that stores domain coordinates only are the domain cells that
are keys, up to order. -/
theorem liveCells_perm_domain (g : SparseGrid)
    (hg : ∀ x y, hasKey g x y = true → inDomain x y) :
    (liveCells g).Perm (domainCells.filter (fun c => hasKey g c.1 c.2)) := by
  rw [List.perm_ext_iff_of_nodup (nodup_liveCells g) (nodup_domainCells.filter _)]
  rintro ⟨x, y⟩
  rw [mem_liveCells, List.mem_filter, mem_domainCells]
  constructor
  · intro h
    exact ⟨hg x y h, h⟩
  · intro h
    exact h.2

/-- C12, amended: with density 0 and draws in `[0, 1)`, `GenerateInitialConditions` on the
empty grid marks exactly the cells of the domain whose draw is `0.0` (the test is
`rand.Float64() <= DENSITY`); it produces the empty grid, no row and no cell, for every
sequence of draws that are all positive. -/
theorem GenerateInitialConditions_density_zero (draws : Nat → ℚ)
    (h : ∀ k, 0 ≤ draws k ∧ draws k < 1) :
    (∀ x y, hasKey (GenerateInitialConditions 0 draws []) x y = true ↔
      ∃ i j : Nat, i < GRID_SIZE ∧ j < GRID_SIZE ∧ (i : Int) = x ∧ (j : Int) = y ∧
        draws (i * GRID_SIZE + j) = 0) ∧
    ((∀ k, 0 < draws k) → GenerateInitialConditions 0 draws [] = []) := by
  constructor
  · intro x y
    rw [hasKey_GenerateInitialConditions]
    constructor
    · rintro ⟨i, j, hi, hj, hx, hy, hd⟩
      exact ⟨i, j, hi, hj, hx, hy, le_antisymm hd (h _).1⟩
    · rintro ⟨i, j, hi, hj, hx, hy, hd⟩
      exact ⟨i, j, hi, hj, hx, hy, le_of_eq hd⟩
  · intro hpos
    rw [GenerateInitialConditions_eq_markLoop]
    rw [markLoop_congr _ (fun _ _ => false) GRID_SIZE GRID_SIZE
      (fun i j _ _ => decide_eq_false (not_le.mpr (hpos (i * GRID_SIZE + j))))]
    exact markLoop_false GRID_SIZE GRID_SIZE []

/-- Witness of the amended C12: all draws equal to `0.5`. -/
theorem GenerateInitialConditions_density_zero_witness :
    GenerateInitialConditions 0 (fun _ => 1 / 2) [] = [] :=
  (GenerateInitialConditions_density_zero (fun _ => 1 / 2) (fun _ => by norm_num)).2
    (fun _ => by norm_num)

/-- C13: with density 1 and draws in `[0, 1)`, `GenerateInitialConditions` on the empty grid
marks every coordinate of the domain and no other: its keys are exactly the pairs with
`0 <= x, y < GRID_SIZE`, and it has exactly `GRID_SIZE * GRID_SIZE` live cells. -/
theorem GenerateInitialConditions_density_one (draws : Nat → ℚ)
    (h : ∀ k, 0 ≤ draws k ∧ draws k < 1) :
    (∀ x y, hasKey (GenerateInitialConditions 1 draws []) x y = true ↔
      (0 ≤ x ∧ x < (GRID_SIZE : Int) ∧ 0 ≤ y ∧ y < (GRID_SIZE : Int))) ∧
    (liveCells (GenerateInitialConditions 1 draws [])).length = GRID_SIZE * GRID_SIZE := by
  have hkeys : ∀ x y, hasKey (GenerateInitialConditions 1 draws []) x y = true ↔
      inDomain x y := by
    intro x y
    rw [hasKey_GenerateInitialConditions]
    unfold inDomain
    constructor
    · rintro ⟨i, j, hi, hj, rfl, rfl, _⟩
      omega
    · rintro ⟨h1, h2, h3, h4⟩
      exact ⟨x.toNat, y.toNat, by omega, by omega, by omega, by omega, le_of_lt (h _).2⟩
  refine ⟨hkeys, ?_⟩
  rw [(liveCells_perm_domain _ (fun x y hk => (hkeys x y).mp hk)).length_eq]
  rw [List.filter_eq_self.mpr, length_domainCells]
  rintro ⟨x, y⟩ hc
  exact (hkeys x y).mpr ((mem_domainCells x y).mp hc)

/-- Witness of C13: all draws equal to `0.5`. -/
theorem GenerateInitialConditions_density_one_witness :
    (liveCells (GenerateInitialConditions 1 (fun _ => 1 / 2) [])).length =
      GRID_SIZE * GRID_SIZE :=
  (GenerateInitialConditions_density_one (fun _ => 1 / 2) (fun _ => by norm_num)).2

/-! ## Lemmas on the occupancy array -/

/-- A loop that assigns positions `0 .. k-1` of a slice made of `n` default values. -/
theorem assign_loop {α : Type} (f : Nat → α) (d : α) (n k : Nat) (hk : k ≤ n) :
    (List.range k).foldl (fun l i => l.set i (f i)) (List.replicate n d) =
      (List.range k).map f ++ List.replicate (n - k) d := by
  induction k with
  | zero => simp
  | succ k ih =>
    rw [List.range_succ, List.foldl_append, ih (Nat.le_of_succ_le hk)]
    simp only [List.foldl_cons, List.foldl_nil, List.map_append, List.map_cons, List.map_nil]
    have hlen : ((List.range k).map f).length = k := by simp
    have e : n - k = (n - (k + 1)) + 1 := by omega
    rw [e, List.replicate_succ]
    rw [List.set_append_right k _ (by rw [hlen])]
    rw [hlen, Nat.sub_self, List.set_cons_zero, List.append_assoc]
    rfl

/-- A loop that assigns `v` at the positions `0 .. k-1` that satisfy `c`. -/
theorem mark_loop {α : Type} (c : Nat → Bool) (v d : α) (n k : Nat) (hk : k ≤ n) :
    (List.range k).foldl (fun l i => if c i = true then l.set i v else l)
        (List.replicate n d) =
      (List.range k).map (fun i => if c i = true then v else d) ++
        List.replicate (n - k) d := by
  induction k with
  | zero => simp
  | succ k ih =>
    rw [List.range_succ, List.foldl_append, ih (Nat.le_of_succ_le hk)]
    simp only [List.foldl_cons, List.foldl_nil, List.map_append, List.map_cons, List.map_nil]
    have hlen : ((List.range k).map (fun i => if c i = true then v else d)).length = k := by
      simp
    have e : n - k = (n - (k + 1)) + 1 := by omega
    rw [e, List.replicate_succ]
    by_cases hc : c k = true
    · rw [if_pos hc, if_pos hc]
      rw [List.set_append_right k _ (by rw [hlen])]
      rw [hlen, Nat.sub_self, List.set_cons_zero, List.append_assoc]
      rfl
    · rw [if_neg hc, if_neg hc, List.append_assoc]
      rfl

/-- The inner loop of `SavePattern` writes row `x` of the array only. -/
theorem saveRow_eq (c : Nat → Bool) (data : List (List Int)) (x m : Nat)
    (hx : x < data.length) :
    (List.range m).foldl (fun data (y : Nat) =>
        if c y = true then data.set x ((data.getD x []).set y 1) else data)
        (data.set x (List.replicate m 0)) =
      data.set x ((List.range m).map (fun y => if c y = true then 1 else 0)) := by
  have hom := List.foldl_hom (fun row : List Int => data.set x row)
    (fun row (y : Nat) => if c y = true then row.set y 1 else row)
    (fun data (y : Nat) => if c y = true then data.set x ((data.getD x []).set y 1) else data)
    (List.range m) (List.replicate m 0) (by
      intro row y
      dsimp only
      by_cases hc : c y = true
      · rw [if_pos hc, if_pos hc, List.set_set]
        congr 2
        rw [List.getD_eq_getElem?_getD, List.getElem?_set_self hx]
        rfl
      · rw [if_neg hc, if_neg hc])
  rw [hom, mark_loop c 1 0 m m (Nat.le_refl m)]
  simp

theorem length_assign_fold {α : Type} (f : Nat → α) (l : List Nat) (data : List α) :
    (l.foldl (fun data i => data.set i (f i)) data).length = data.length := by
  induction l generalizing data with
  | nil => rfl
  | cons i rest ih =>
    rw [List.foldl_cons, ih, List.length_set]

theorem SavePatternData_eq_spec (g : SparseGrid) (label : String) :
    SavePatternData g label = specDenseArray g := by
  unfold SavePatternData specDenseArray
  have step : ∀ (data : List (List Int)), data.length = GRID_SIZE →
      ∀ k, k ≤ GRID_SIZE →
      (List.range k).foldl (fun data (x : Nat) =>
        (List.range GRID_SIZE).foldl (fun data (y : Nat) =>
          if (mapLookup (rowAt g (x : Int)) (y : Int)).isSome then
            data.set x ((data.getD x []).set y 1)
          else data) (data.set x (List.replicate GRID_SIZE 0))) data =
      (List.range k).foldl (fun data (x : Nat) =>
        data.set x ((List.range GRID_SIZE).map (fun (y : Nat) =>
          if hasKey g (x : Int) (y : Int) then 1 else 0))) data := by
    intro data hd k hk
    induction k with
    | zero => rfl
    | succ k ih =>
      rw [List.range_succ, List.foldl_append, List.foldl_append, ih (Nat.le_of_succ_le hk)]
      simp only [List.foldl_cons, List.foldl_nil]
      apply saveRow_eq (fun y => (mapLookup (rowAt g (k : Int)) (y : Int)).isSome)
      rw [length_assign_fold, hd]
      exact hk
  rw [step _ (by simp) GRID_SIZE (Nat.le_refl _)]
  rw [assign_loop _ [] GRID_SIZE GRID_SIZE (Nat.le_refl _)]
  simp

theorem specDenseArray_entry (g : SparseGrid) (i j : Nat) (hi : i < GRID_SIZE)
    (hj : j < GRID_SIZE) :
    ((specDenseArray g).getD i []).getD j 0 =
      if hasKey g (i : Int) (j : Int) then 1 else 0 := by
  unfold specDenseArray
  simp [List.getD_eq_getElem?_getD, List.getElem?_map, List.getElem?_range, hi, hj]

theorem specDenseArray_congr (g g2 : SparseGrid)
    (h : ∀ x y, inDomain x y → hasKey g2 x y = hasKey g x y) :
    specDenseArray g2 = specDenseArray g := by
  unfold specDenseArray
  apply List.map_congr_left
  intro x hx
  apply List.map_congr_left
  intro y hy
  rw [List.mem_range] at hx hy
  rw [h (x : Int) (y : Int) (by unfold inDomain; omega)]

/-- C14: the array that `SavePattern` builds has exactly `GRID_SIZE` rows of exactly
`GRID_SIZE` entries; its entry `data[x][y]`, for `0 <= x, y < GRID_SIZE`, is 1 if `(x, y)` is
a key of the grid and 0 otherwise; and it is a function of the in-domain keys alone: a second
grid with the same keys in the domain, with any label, stored values and off-domain keys,
gives the same array. -/
theorem SavePattern_dense_array (g : SparseGrid) (label : String) :
    (SavePatternData g label).length = GRID_SIZE ∧
    (∀ row ∈ SavePatternData g label, row.length = GRID_SIZE) ∧
    (∀ i j : Nat, i < GRID_SIZE → j < GRID_SIZE →
      ((SavePatternData g label).getD i []).getD j 0 =
        if hasKey g (i : Int) (j : Int) then 1 else 0) ∧
    (∀ (g2 : SparseGrid) (label2 : String),
      (∀ x y, (0 ≤ x ∧ x < (GRID_SIZE : Int) ∧ 0 ≤ y ∧ y < (GRID_SIZE : Int)) →
        hasKey g2 x y = hasKey g x y) →
      SavePatternData g2 label2 = SavePatternData g label) := by
  refine ⟨?_, ?_, ?_, ?_⟩
  · rw [SavePatternData_eq_spec]
    simp [specDenseArray]
  · intro row hrow
    rw [SavePatternData_eq_spec] at hrow
    unfold specDenseArray at hrow
    rw [List.mem_map] at hrow
    obtain ⟨x, _, hx⟩ := hrow
    rw [← hx]
    simp
  · intro i j hi hj
    rw [SavePatternData_eq_spec]
    exact specDenseArray_entry g i j hi hj
  · intro g2 label2 h
    rw [SavePatternData_eq_spec, SavePatternData_eq_spec]
    exact specDenseArray_congr g g2 h

/-- Witness of C14: the entry at `(5, 5)` of the array of the block, and the array of a grid
that stores `false` at `(5, 5)` and holds the off-domain key `(200, 3)`, saved under another
label, against the array of the grid `{(5, 5)}`. -/
theorem SavePattern_dense_array_witness :
    ((SavePatternData block55 "block").getD 5 []).getD 5 0 = 1 ∧
    SavePatternData [(5, [(5, false)]), (200, [(3, true)])] "left" =
      SavePatternData [(5, [(5, true)])] "right" := by
  refine ⟨?_, ?_⟩
  · have h := (SavePattern_dense_array block55 "block").2.2.1 5 5 (by decide) (by decide)
    rw [h]
    decide
  · apply (SavePattern_dense_array [(5, [(5, true)])] "right").2.2.2
    intro x y hd
    unfold hasKey rowAt
    by_cases h5 : (5 : Int) = x
    · subst h5
      by_cases k5 : (5 : Int) = y
      · subst k5
        simp [mapLookup]
      · simp [mapLookup, k5]
    · have h200 : ¬ (200 : Int) = x := by
        unfold GRID_SIZE at hd
        omega
      simp [mapLookup, h5, h200]

/-! ## Sparsity of the grids the program builds -/

theorem mapLookup_markAlive (m : SparseGrid) (x y u : Int) :
    mapLookup (markAlive m x y) u =
      if x = u then some (mapStore (rowAt m x) y true) else mapLookup m u := by
  unfold markAlive
  by_cases hx : x = u
  · subst hx
    cases hm : mapLookup m x <;> simp [mapLookup_mapStore, rowAt, hm]
  · cases hm : mapLookup m x <;> simp [mapLookup_mapStore, hx, hm]

theorem sparse_nil : sparse [] := by
  constructor
  · intro x y v h
    simp [rowAt, mapLookup] at h
  · intro x row h
    simp [mapLookup] at h

theorem sparse_markAlive (m : SparseGrid) (x y : Int) (h : sparse m) :
    sparse (markAlive m x y) := by
  obtain ⟨h1, h2⟩ := h
  constructor
  · intro u v w hw
    unfold rowAt at hw
    rw [mapLookup_markAlive] at hw
    by_cases hx : x = u
    · subst hx
      simp only [if_true, Option.getD_some] at hw
      rw [mapLookup_mapStore] at hw
      by_cases hy : y = v
      · rw [if_pos hy] at hw
        cases hw
        rfl
      · rw [if_neg hy] at hw
        exact h1 x v w hw
    · rw [if_neg hx] at hw
      exact h1 u v w hw
  · intro u row hrow
    rw [mapLookup_markAlive] at hrow
    by_cases hx : x = u
    · rw [if_pos hx] at hrow
      cases hrow
      refine ⟨y, ?_⟩
      rw [mapLookup_mapStore]
      simp
    · rw [if_neg hx] at hrow
      exact h2 u row hrow

theorem sparse_markLoop (P : Nat → Nat → Bool) (n m : Nat) : sparse (markLoop P n m []) :=
  markLoop_invariant sparse P n m (fun acc _ _ _ _ h => sparse_markAlive acc _ _ h) []
    sparse_nil

theorem sparse_UpdateGrid (g : SparseGrid) : sparse (UpdateGrid g) := by
  rw [UpdateGrid_eq_markLoop]
  exact sparse_markLoop _ _ _

theorem sparse_iterate (g : SparseGrid) (hg : sparse g) (n : Nat) :
    sparse (UpdateGrid^[n] g) := by
  cases n with
  | zero => exact hg
  | succ n =>
    rw [Function.iterate_succ_apply']
    exact sparse_UpdateGrid _

/-- C15: for every input grid, also one that holds `false` values or empty rows, every entry
of `UpdateGrid g` holds `true` and every row of `UpdateGrid g` is non-empty, so that a key is
present exactly when the value `true` is stored under it; the same holds for the grid that
`GenerateInitialConditions` builds from the empty grid, and for every generation reached
from it by `n` steps of `UpdateGrid`. -/
theorem sparsity_invariant (g : SparseGrid) (density : ℚ) (draws : Nat → ℚ) (n : Nat) :
    sparse (UpdateGrid g) ∧
    sparse (GenerateInitialConditions density draws []) ∧
    sparse (UpdateGrid^[n] (GenerateInitialConditions density draws [])) ∧
    (∀ x y, hasKey (UpdateGrid g) x y = true ↔
      mapLookup (rowAt (UpdateGrid g) x) y = some true) ∧
    (∀ x y, hasKey (UpdateGrid^[n] (GenerateInitialConditions density draws [])) x y = true ↔
      mapLookup (rowAt (UpdateGrid^[n] (GenerateInitialConditions density draws [])) x) y =
        some true) := by
  have key : ∀ g0 : SparseGrid, sparse g0 → ∀ x y,
      (hasKey g0 x y = true ↔ mapLookup (rowAt g0 x) y = some true) := by
    intro g0 hs x y
    unfold hasKey
    constructor
    · intro h
      cases hv : mapLookup (rowAt g0 x) y with
      | none => rw [hv] at h; cases h
      | some v => rw [hs.1 x y v hv]
    · intro h
      rw [h]
      rfl
  have hgen : sparse (GenerateInitialConditions density draws []) := by
    rw [GenerateInitialConditions_eq_markLoop]
    exact sparse_markLoop _ _ _
  exact ⟨sparse_UpdateGrid g, hgen, sparse_iterate _ hgen n,
    key _ (sparse_UpdateGrid g), key _ (sparse_iterate _ hgen n)⟩

/-! ## Only key presence matters -/

/-- C16: two grids with the same set of present coordinates, whatever values are stored under
the keys and whether or not empty rows exist, have the same `GetNeighbours` and the same
`CalculateNextState` at every `(x, y)`, and the same `UpdateGrid`. -/
theorem key_presence_only (g1 g2 : SparseGrid)
    (h : ∀ x y, hasKey g1 x y = hasKey g2 x y) :
    (∀ x y, SparseGrid.GetNeighbours g1 x y = SparseGrid.GetNeighbours g2 x y) ∧
    (∀ x y, CalculateNextState g1 x y = CalculateNextState g2 x y) ∧
    UpdateGrid g1 = UpdateGrid g2 := by
  have hn : ∀ x y, SparseGrid.GetNeighbours g1 x y = SparseGrid.GetNeighbours g2 x y :=
    fun x y => GetNeighbours_congr g2 g1 x y (fun u v _ => h u v)
  have hc : ∀ x y, CalculateNextState g1 x y = CalculateNextState g2 x y := by
    intro x y
    have hk := h x y
    unfold hasKey at hk
    unfold CalculateNextState
    rw [hn x y, hk]
  exact ⟨hn, hc, UpdateGrid_congr g1 g2 (fun x y _ => hc x y)⟩

/-- Witness of C16: a grid that stores `false` under `(5, 5)` and holds an empty row, against
the grid `{(5, 5)}`; the entry stored with `false` counts as a live neighbour of `(5, 6)`. -/
theorem key_presence_only_witness :
    UpdateGrid falseEntryGrid = UpdateGrid [(5, [(5, true)])] ∧
    SparseGrid.GetNeighbours falseEntryGrid 5 6 = 1 := by
  refine ⟨(key_presence_only falseEntryGrid [(5, [(5, true)])] ?_).2.2, by decide⟩
  intro x y
  unfold hasKey rowAt falseEntryGrid
  by_cases h5 : (5 : Int) = x
  · subst h5
    by_cases k5 : (5 : Int) = y
    · subst k5
      simp [mapLookup]
    · simp [mapLookup, k5]
  · by_cases h7 : (7 : Int) = x
    · subst h7
      simp [mapLookup]
    · simp [mapLookup, h5, h7]

/-! ## Totality -/

/-- The checked assignment after the guard `if _, ok := m[x]; !ok { m[x] = make(...) }` never
panics and is the assignment block of the unchecked embedding. -/
theorem storeCellChecked_guarded (m : SparseGrid) (x y : Int) :
    storeCellChecked (if (mapLookup m x).isSome then m else mapStore m x []) x y true =
      Except.ok (markAlive m x y) := by
  unfold storeCellChecked markAlive rowAt
  cases hm : mapLookup m x with
  | none => simp [mapLookup_mapStore]
  | some row => simp [hm]

theorem checkedRow_eq (P : Nat → Bool) (x : Int) (m : Nat) (g : SparseGrid) (c : Nat) :
    (List.range m).foldlM (fun (st : SparseGrid × Nat) (y : Nat) =>
        if P y = true then
          (storeCellChecked
            (if (mapLookup st.1 x).isSome then st.1 else mapStore st.1 x [])
            x (y : Int) true).map (fun m2 => (m2, st.2 + 1))
        else (Except.ok (st.1, st.2 + 1) : Except GoPanic (SparseGrid × Nat))) (g, c) =
      Except.ok ((List.range m).foldl
        (fun acc (y : Nat) => if P y = true then markAlive acc x (y : Int) else acc) g,
        c + m) := by
  induction m with
  | zero => rfl
  | succ m ih =>
    rw [List.range_succ, List.foldlM_append, ih, List.foldl_append]
    simp only [List.foldl_cons, List.foldl_nil, List.foldlM_cons, List.foldlM_nil, bind,
      Except.bind, pure, Except.pure]
    by_cases hp : P m = true
    · rw [if_pos hp, if_pos hp, storeCellChecked_guarded]
      rfl
    · rw [if_neg hp, if_neg hp]
      rfl

theorem UpdateGridChecked_eq (g : SparseGrid) :
    UpdateGridChecked g = Except.ok (UpdateGrid g, GRID_SIZE * GRID_SIZE) := by
  have key : ∀ n : Nat,
      (List.range n).foldlM (fun (st : SparseGrid × Nat) (x : Nat) =>
        (List.range GRID_SIZE).foldlM (fun (st : SparseGrid × Nat) (y : Nat) =>
          if CalculateNextState g (x : Int) (y : Int) then
            (storeCellChecked
              (if (mapLookup st.1 (x : Int)).isSome then st.1 else mapStore st.1 (x : Int) [])
              (x : Int) (y : Int) true).map (fun m2 => (m2, st.2 + 1))
          else (Except.ok (st.1, st.2 + 1) : Except GoPanic (SparseGrid × Nat))) st)
        ([], 0) =
      Except.ok (markLoop (fun i j => CalculateNextState g (i : Int) (j : Int))
        n GRID_SIZE [], n * GRID_SIZE) := by
    intro n
    induction n with
    | zero => simp [markLoop]; rfl
    | succ n ih =>
      rw [List.range_succ, List.foldlM_append, ih]
      simp only [List.foldlM_cons, List.foldlM_nil, bind, Except.bind, pure, Except.pure]
      have hrow := checkedRow_eq (fun j => CalculateNextState g (n : Int) (j : Int)) (n : Int)
        GRID_SIZE (markLoop (fun i j => CalculateNextState g (i : Int) (j : Int))
          n GRID_SIZE []) (n * GRID_SIZE)
      rw [hrow, Nat.succ_mul]
      unfold markLoop
      rw [List.range_succ, List.foldl_append]
      rfl
  unfold UpdateGridChecked
  rw [key GRID_SIZE, UpdateGrid_eq_markLoop]

/-- C17: `GetNeighbours`, `CalculateNextState` and `UpdateGrid` are total. They are embedded
as total functions, without fuel, so they return a value for every grid and every pair of
integers: the neighbour count is a value between 0 and 8, a read through an absent row finds
no key instead of failing, and `UpdateGrid` with the run-time check of its only assignment
reaches no panic, returns the grid of the unchecked embedding and evaluates the rule at
exactly `GRID_SIZE * GRID_SIZE` coordinates. This covers the empty grid, grids with absent
rows and grids with keys outside the domain. -/
theorem core_total (g : SparseGrid) (x y : Int) :
    UpdateGridChecked g = Except.ok (UpdateGrid g, GRID_SIZE * GRID_SIZE) ∧
    (0 ≤ SparseGrid.GetNeighbours g x y ∧ SparseGrid.GetNeighbours g x y ≤ 8) ∧
    (mapLookup g x = none →
      hasKey g x y = false ∧
      CalculateNextState g x y = (SparseGrid.GetNeighbours g x y == 3)) ∧
    UpdateGridChecked [] = Except.ok ([], GRID_SIZE * GRID_SIZE) ∧
    SparseGrid.GetNeighbours [] x y = 0 ∧
    CalculateNextState [] x y = false := by
  refine ⟨UpdateGridChecked_eq g, GetNeighbours_bounds g x y, ?_, ?_, GetNeighbours_nil x y,
    CalculateNextState_nil x y⟩
  · intro hm
    have hk : hasKey g x y = false := by
      unfold hasKey rowAt
      rw [hm]
      rfl
    refine ⟨hk, ?_⟩
    unfold hasKey at hk
    unfold CalculateNextState
    rw [hk]
    rfl
  · rw [UpdateGridChecked_eq, UpdateGrid_eq_markLoop]
    rw [markLoop_congr _ (fun _ _ => false) GRID_SIZE GRID_SIZE
      (fun i j _ _ => CalculateNextState_nil (i : Int) (j : Int))]
    rw [markLoop_false]

/-- Witness of C17: the grid with the off-domain triple has no row 0, and the read of the
cell `(0, 1)` through the absent row finds no key. -/
theorem core_total_witness :
    hasKey borderTriple 0 1 = false ∧
    CalculateNextState borderTriple 0 1 = (SparseGrid.GetNeighbours borderTriple 0 1 == 3) :=
  (core_total borderTriple 0 1).2.2.1 (by decide)

/-! ## Transposition of the grid -/

theorem hasKey_foldl_markAlive (l : List (Int × Int)) (acc : SparseGrid) (x y : Int) :
    hasKey (l.foldl (fun acc c => markAlive acc c.2 c.1) acc) x y = true ↔
      (hasKey acc x y = true ∨ (y, x) ∈ l) := by
  induction l generalizing acc with
  | nil => simp
  | cons c rest ih =>
    rw [List.foldl_cons, ih, hasKey_markAlive]
    simp only [Bool.or_eq_true, decide_eq_true_eq, List.mem_cons]
    constructor
    · rintro ((⟨h1, h2⟩ | h) | h)
      · refine Or.inr (Or.inl ?_)
        rw [h1, h2]
      · exact Or.inl h
      · exact Or.inr (Or.inr h)
    · rintro (h | h | h)
      · exact Or.inl (Or.inr h)
      · rw [← h]
        exact Or.inl (Or.inl ⟨rfl, rfl⟩)
      · exact Or.inr h

theorem hasKey_transposeGrid (g : SparseGrid) (x y : Int) :
    hasKey (transposeGrid g) x y = hasKey g y x := by
  rw [Bool.eq_iff_iff]
  unfold transposeGrid
  rw [hasKey_foldl_markAlive, mem_liveCells]
  simp [hasKey_nil]

theorem GetNeighbours_swap (g gt : SparseGrid) (h : ∀ u v, hasKey gt u v = hasKey g v u)
    (x y : Int) : SparseGrid.GetNeighbours gt x y = SparseGrid.GetNeighbours g y x := by
  rw [GetNeighbours_eq_sum, GetNeighbours_eq_sum]
  simp only [h]
  ring

theorem CalculateNextState_swap (g gt : SparseGrid)
    (h : ∀ u v, hasKey gt u v = hasKey g v u) (x y : Int) :
    CalculateNextState gt x y = CalculateNextState g y x := by
  have hk := h x y
  unfold hasKey at hk
  unfold CalculateNextState
  rw [GetNeighbours_swap g gt h x y, hk]

theorem hasKey_UpdateGrid_swap (g gt : SparseGrid)
    (h : ∀ u v, hasKey gt u v = hasKey g v u) (x y : Int) :
    hasKey (UpdateGrid gt) x y = hasKey (UpdateGrid g) y x := by
  rw [Bool.eq_iff_iff, hasKey_UpdateGrid, hasKey_UpdateGrid, CalculateNextState_swap g gt h x y]
  unfold inDomain
  constructor
  · rintro ⟨⟨h1, h2, h3, h4⟩, hc⟩
    exact ⟨⟨h3, h4, h1, h2⟩, hc⟩
  · rintro ⟨⟨h1, h2, h3, h4⟩, hc⟩
    exact ⟨⟨h3, h4, h1, h2⟩, hc⟩

/-- C18: `UpdateGrid` commutes with transposition on the square domain: for every grid `g`
the live set of `UpdateGrid (transposeGrid g)` is the live set of
`transposeGrid (UpdateGrid g)`, cell by cell and as lists of live cells up to order. -/
theorem UpdateGrid_commutes_with_transpose (g : SparseGrid) :
    (∀ x y, hasKey (UpdateGrid (transposeGrid g)) x y =
      hasKey (transposeGrid (UpdateGrid g)) x y) ∧
    (liveCells (UpdateGrid (transposeGrid g))).Perm
      (liveCells (transposeGrid (UpdateGrid g))) := by
  have hk : ∀ x y, hasKey (UpdateGrid (transposeGrid g)) x y =
      hasKey (transposeGrid (UpdateGrid g)) x y := by
    intro x y
    rw [hasKey_transposeGrid, hasKey_UpdateGrid_swap g (transposeGrid g)
      (hasKey_transposeGrid g) x y]
  refine ⟨hk, ?_⟩
  rw [List.perm_ext_iff_of_nodup (nodup_liveCells _) (nodup_liveCells _)]
  rintro ⟨x, y⟩
  rw [mem_liveCells, mem_liveCells, hk]

/-! ## Reading the occupancy array back -/

theorem specDenseArray_row (g : SparseGrid) (i : Nat) (hi : i < GRID_SIZE) :
    (specDenseArray g).getD i [] =
      (List.range GRID_SIZE).map (fun (y : Nat) =>
        if hasKey g (i : Int) (y : Int) then (1 : Int) else 0) := by
  unfold specDenseArray
  simp [List.getD_eq_getElem?_getD, List.getElem?_map, List.getElem?_range, hi]

theorem mem_onesOf_spec (g : SparseGrid) (x y : Int) :
    (x, y) ∈ onesOf (specDenseArray g) ↔ (inDomain x y ∧ hasKey g x y = true) := by
  have hlen : (specDenseArray g).length = GRID_SIZE := by simp [specDenseArray]
  unfold onesOf
  rw [hlen]
  simp only [List.mem_flatMap, List.mem_map, List.mem_filter, List.mem_range, Prod.mk.injEq]
  constructor
  · rintro ⟨i, hi, j, ⟨hj, hone⟩, rfl, rfl⟩
    rw [specDenseArray_row g i hi] at hj hone
    rw [List.length_map, List.length_range] at hj
    have he := specDenseArray_entry g i j hi hj
    rw [specDenseArray_row g i hi] at he
    rw [he] at hone
    refine ⟨by unfold inDomain; omega, ?_⟩
    by_contra hk
    rw [if_neg hk] at hone
    exact absurd hone (by decide)
  · rintro ⟨⟨h1, h2, h3, h4⟩, hk⟩
    have hi : x.toNat < GRID_SIZE := by omega
    have hj : y.toNat < GRID_SIZE := by omega
    have ex : ((x.toNat : Nat) : Int) = x := Int.toNat_of_nonneg h1
    have ey : ((y.toNat : Nat) : Int) = y := Int.toNat_of_nonneg h3
    refine ⟨x.toNat, hi, y.toNat, ⟨?_, ?_⟩, ex, ey⟩
    · rw [specDenseArray_row g _ hi, List.length_map, List.length_range]
      exact hj
    · have he := specDenseArray_entry g x.toNat y.toNat hi hj
      rw [ex, ey, if_pos hk] at he
      rw [he]
      rfl

theorem count_one_indicator (c : Nat → Bool) (l : List Nat) :
    (l.map (fun y => if c y = true then (1 : Int) else 0)).count 1 = (l.filter c).length := by
  induction l with
  | nil => rfl
  | cons a rest ih =>
    rw [List.map_cons, List.count_cons, ih, List.filter_cons]
    by_cases hc : c a = true
    · simp [hc]
    · simp [hc]

theorem length_filter_cells (p : Int × Int → Bool) (l l2 : List Nat) :
    ((l.flatMap (fun (x : Nat) => l2.map (fun (y : Nat) => ((x : Int), (y : Int))))).filter
      p).length =
      (l.map (fun (x : Nat) =>
        (l2.filter (fun (y : Nat) => p ((x : Int), (y : Int)))).length)).sum := by
  induction l with
  | nil => rfl
  | cons a rest ih =>
    rw [List.flatMap_cons, List.filter_append, List.length_append, ih, List.map_cons,
      List.sum_cons, List.filter_map, List.length_map]
    rfl

theorem countOnes_spec (g : SparseGrid) :
    countOnes (specDenseArray g) =
      (domainCells.filter (fun c => hasKey g c.1 c.2)).length := by
  unfold countOnes specDenseArray domainCells
  rw [length_filter_cells, List.map_map]
  apply congrArg
  apply List.map_congr_left
  intro x _
  exact count_one_indicator (fun y => hasKey g (x : Int) (y : Int)) _

theorem specDenseArray_injective (g1 g2 : SparseGrid)
    (h1 : ∀ x y, hasKey g1 x y = true → inDomain x y)
    (h2 : ∀ x y, hasKey g2 x y = true → inDomain x y)
    (he : specDenseArray g1 = specDenseArray g2) (x y : Int) :
    hasKey g1 x y = hasKey g2 x y := by
  by_cases hd : inDomain x y
  · obtain ⟨d1, d2, d3, d4⟩ := hd
    have hi : x.toNat < GRID_SIZE := by omega
    have hj : y.toNat < GRID_SIZE := by omega
    have ex : ((x.toNat : Nat) : Int) = x := Int.toNat_of_nonneg d1
    have ey : ((y.toNat : Nat) : Int) = y := Int.toNat_of_nonneg d3
    have e1 := specDenseArray_entry g1 x.toNat y.toNat hi hj
    have e2 := specDenseArray_entry g2 x.toNat y.toNat hi hj
    rw [he, e2, ex, ey] at e1
    cases k1 : hasKey g1 x y <;> cases k2 : hasKey g2 x y <;> simp [k1, k2] at e1 <;> rfl
  · have n1 : hasKey g1 x y = false := by
      rw [Bool.eq_false_iff]
      exact fun hk => hd (h1 x y hk)
    have n2 : hasKey g2 x y = false := by
      rw [Bool.eq_false_iff]
      exact fun hk => hd (h2 x y hk)
    rw [n1, n2]

/-- C19: for grids all of whose keys lie in the domain the occupancy array loses nothing: two
such grids for which `SavePattern` builds the same array have the same live cells, the
coordinates read back from the entries that hold 1 are exactly the live cells, and the number
of entries that hold 1 is the number of live cells. Any two outputs of `UpdateGrid` are such
grids. -/
theorem dense_array_lossless (g1 g2 : SparseGrid) (label1 label2 : String)
    (h1 : ∀ x y, hasKey g1 x y = true →
      (0 ≤ x ∧ x < (GRID_SIZE : Int) ∧ 0 ≤ y ∧ y < (GRID_SIZE : Int)))
    (h2 : ∀ x y, hasKey g2 x y = true →
      (0 ≤ x ∧ x < (GRID_SIZE : Int) ∧ 0 ≤ y ∧ y < (GRID_SIZE : Int))) :
    (SavePatternData g1 label1 = SavePatternData g2 label2 →
      ∀ x y, hasKey g1 x y = hasKey g2 x y) ∧
    (∀ x y, (x, y) ∈ onesOf (SavePatternData g1 label1) ↔ hasKey g1 x y = true) ∧
    countOnes (SavePatternData g1 label1) = (liveCells g1).length ∧
    (∀ ga gb : SparseGrid,
      SavePatternData (UpdateGrid ga) label1 = SavePatternData (UpdateGrid gb) label2 →
        ∀ x y, hasKey (UpdateGrid ga) x y = hasKey (UpdateGrid gb) x y) := by
  have hout : ∀ ga : SparseGrid, ∀ x y, hasKey (UpdateGrid ga) x y = true → inDomain x y :=
    fun ga x y hk => ((hasKey_UpdateGrid ga x y).mp hk).1
  refine ⟨?_, ?_, ?_, ?_⟩
  · intro he
    rw [SavePatternData_eq_spec, SavePatternData_eq_spec] at he
    exact specDenseArray_injective g1 g2 h1 h2 he
  · intro x y
    rw [SavePatternData_eq_spec, mem_onesOf_spec]
    constructor
    · exact fun h => h.2
    · exact fun h => ⟨h1 x y h, h⟩
  · rw [SavePatternData_eq_spec, countOnes_spec]
    exact (liveCells_perm_domain g1 h1).length_eq.symm
  · intro ga gb he
    rw [SavePatternData_eq_spec, SavePatternData_eq_spec] at he
    exact specDenseArray_injective _ _ (hout ga) (hout gb) he

/-- Witness of C19: the block of the specification, saved under two labels: four entries
hold 1. -/
theorem dense_array_lossless_witness :
    countOnes (SavePatternData block55 "first") = (liveCells block55).length ∧
    (liveCells block55).length = 4 := by
  have hb : ∀ x y, hasKey block55 x y = true →
      (0 ≤ x ∧ x < (GRID_SIZE : Int) ∧ 0 ≤ y ∧ y < (GRID_SIZE : Int)) := by
    intro x y hk
    rw [hasKey_block55] at hk
    unfold GRID_SIZE
    omega
  exact ⟨(dense_array_lossless block55 block55 "first" "second" hb hb).2.2.1, by decide⟩

end Oopsie
